import Mathlib

/-!
# Leveled logger with rotating file sinks (`logger/logger.go`)

A shallow embedding of the Go package `logger`: the helpers that parse and
build the numbered file names (`getIndexLogFile`, `getNumLogFile`,
`getFileNum`), the configuration setters, the rotation check
(`checkLogFileSize`), `Print` and the five level methods.

Conventions of the embedding:

* a Go `string` is the list of its bytes, one `Char` per byte;
* a Go `int` is an `Int` (64-bit platform); the one addition of the source
  (`getNumLogFile(..) + 1`) wraps with `wrapInt`;
* a run-time panic, `panic(err)`, `logger.Panicf` and `logger.Fatalf` end a
  call with `Res.stop`, carrying the state reached at that point;
* the operating system is an explicit `World`: the file-system nodes, each
  under the key its paths resolve to, the working directory, the table of
  open descriptors, and the two standard streams.
-/

namespace Logger

/-- A Go string, as the sequence of its bytes. -/
abbrev Str := List Char

/-! ## Go built-ins used by the source -/

/-- Go slice expression `s[lo:hi]`. The value `none` is the run-time panic
"slice bounds out of range". -/
def slice (s : Str) (lo hi : Int) : Option Str :=
  if 0 ≤ lo ∧ lo ≤ hi ∧ hi ≤ (s.length : Int) then
    some ((s.take hi.toNat).drop lo.toNat)
  else none

/-- Two's complement wrap-around of a 64-bit Go `int`. -/
def wrapInt (x : Int) : Int := (x + 2 ^ 63) % 2 ^ 64 - 2 ^ 63

/-- Result of `strconv.ParseUint(s, 10, 64)`: a value, a syntax error, or a
range error (reported as soon as the running value leaves 64 bits). -/
inductive UintParse where
  | ok (n : Nat)
  | syntaxErr
  | rangeErr
  deriving DecidableEq, Repr

/-- One iteration of the digit loop of `strconv.ParseUint` in base 10. -/
def parseUintStep (acc : UintParse) (c : Char) : UintParse :=
  match acc with
  | .ok n =>
    if '0' ≤ c ∧ c ≤ '9' then
      if n * 10 + (c.toNat - 48) < 2 ^ 64 then .ok (n * 10 + (c.toNat - 48)) else .rangeErr
    else .syntaxErr
  | e => e

/-- Go `strconv.ParseUint(s, 10, 64)`. -/
def ParseUint (s : Str) : UintParse :=
  if s = [] then .syntaxErr else s.foldl parseUintStep (.ok 0)

/-- Go `strconv.Atoi(s)` with the error dropped, as in `ret, _ := strconv.Atoi(num)`:
0 on a syntax error, the clamped bound on a range error. (The fast path of
`Atoi` for short inputs computes the same value as `ParseInt(s, 10, 0)`.) -/
def Atoi (s : Str) : Int :=
  match s with
  | [] => 0
  | c :: rest =>
    let neg : Bool := c = '-'
    let body : Str := if c = '+' ∨ c = '-' then rest else s
    match ParseUint body with
    | .syntaxErr => 0
    | .rangeErr => if neg then -(2 ^ 63) else 2 ^ 63 - 1
    | .ok un =>
      if neg then (if 2 ^ 63 < un then -(2 ^ 63) else -(un : Int))
      else (if 2 ^ 63 ≤ un then 2 ^ 63 - 1 else (un : Int))

/-- Go `strconv.Itoa(n)`. -/
def Itoa (n : Int) : Str :=
  if n < 0 then '-' :: Nat.toDigits 10 n.natAbs else Nat.toDigits 10 n.toNat

/-- Go `strings.Split(s, ".")`: the segments between dots; never empty. -/
def splitDot : Str → List Str
  | [] => [[]]
  | c :: cs =>
    if c = '.' then [] :: splitDot cs
    else
      match splitDot cs with
      | [] => [[c]]
      | p :: ps => (c :: p) :: ps

/-- Go `strings.Join(parts, ".")`. -/
def joinDot : List Str → Str
  | [] => []
  | [p] => p
  | p :: q :: ps => p ++ '.' :: joinDot (q :: ps)

/-- Go `strings.LastIndex(s, "/")`, `none` standing for -1. -/
def lastIndexSlash (s : Str) : Option Nat :=
  match s.reverse.indexOf? '/' with
  | none => none
  | some k => some (s.length - 1 - k)

/-- The constant `".log"`. -/
def dotLog : Str := ['.', 'l', 'o', 'g']

/-! ## `getIndexLogFile` and `getNumLogFile` -/

/-- Loop of `getIndexLogFile`: `i` runs downwards and stops before index 0. -/
def getIndexLogFileLoop (fileName : Str) : Nat → Nat → Int
  | 0, _ => 0
  | i + 1, counter =>
    let counter := if fileName[i + 1]? = some '.' then counter + 1 else counter
    if counter = 2 then (fileName.length : Int) - ((i + 1 : Nat) : Int) - 1
    else getIndexLogFileLoop fileName i counter

/-- Source: `getIndexLogFile`: number of bytes after the second dot counted from the end
of the name (index 0 is never inspected); 0 when there is no such dot. -/
def getIndexLogFile (fileName : Str) : Int :=
  getIndexLogFileLoop fileName (fileName.length - 1) 0

/-- Outcome of the inner `for j` loop of `getNumLogFile`. -/
inductive Scan where
  | ret (v : Int)
  | cont (num : Str)
  deriving DecidableEq, Repr

/-- Inner loop of `getNumLogFile`, `for j := i; j < len(fileName)-1; j++`, with
`n` iterations left: returns `Atoi(num)` at the first dot, else extends `num`. -/
def numLoop (fileName : Str) : Nat → Nat → Str → Scan
  | 0, _, num => .cont num
  | n + 1, j, num =>
    if fileName[j]? = some '.' then .ret (Atoi num)
    else numLoop fileName n (j + 1) (num ++ [fileName.getD j (Char.ofNat 0)])

/-- Outer loop of `getNumLogFile` once `checkToken` is set (`counter` is then
at least 3 and never equals 2 again): every iteration runs the inner loop
from `i`. -/
def getNumLogFileTail (fileName : Str) : Nat → Str → Int
  | 0, _ => 0
  | i + 1, num =>
    match numLoop fileName (fileName.length - 1 - (i + 1)) (i + 1) num with
    | .ret v => v
    | .cont num1 => getNumLogFileTail fileName i num1

/-- Outer loop of `getNumLogFile` while `checkToken` is false. When the second
dot is met at index `i + 1` the source sets `checkToken`, bumps `counter` to 3
and does `i++`, so the inner loop starts at `i + 2`; the loop's `i--` then
resumes the outer loop at `i + 1`. -/
def getNumLogFileLoop (fileName : Str) : Nat → Nat → Int
  | 0, _ => 0
  | i + 1, counter =>
    let counter := if fileName[i + 1]? = some '.' then counter + 1 else counter
    if counter = 2 then
      match numLoop fileName (fileName.length - 1 - (i + 2)) (i + 2) [] with
      | .ret v => v
      | .cont num => getNumLogFileTail fileName (i + 1) num
    else getNumLogFileLoop fileName i counter

/-- Source: `getNumLogFile`: the number written between the last two dots. -/
def getNumLogFile (fileName : Str) : Int :=
  getNumLogFileLoop fileName (fileName.length - 1) 0

/-! ## The operating system seen by the package -/

/-- Identity of a file-system node: the names on the way from the root. Two
path texts denote the same file exactly when they resolve to the same key
(symbolic and hard links are not part of the model). -/
abbrev Key := List Str

/-- A file-system node: its key, whether it is a directory, and its bytes. -/
structure Node where
  key : Key
  isDir : Bool
  data : Str
  deriving DecidableEq, Repr

/-- An open file description: the file it was opened on, whether it was opened
with `O_APPEND`, and its own offset. -/
structure OpenFile where
  key : Key
  append : Bool
  pos : Nat
  deriving DecidableEq, Repr

/-- An `io.Writer` of the package: a standard stream or an open `*os.File`,
named by its index in the descriptor table. -/
inductive Writer where
  | stdout
  | stderr
  | file (fd : Nat)
  deriving DecidableEq, Repr

/-- The environment: file-system nodes, the working directory of the process,
the descriptor table, the bytes written so far to the two standard streams,
and the sequence of writes made by the logger. -/
structure World where
  fs : List Node
  cwd : Key
  fds : List OpenFile
  stdout : Str
  stderr : Str
  trace : List (Writer × Str)
  deriving DecidableEq, Repr

/-- The components of a path text, split at every slash. -/
def splitSlash : Str → List Str
  | [] => [[]]
  | c :: cs =>
    if c = '/' then [] :: splitSlash cs
    else
      match splitSlash cs with
      | [] => [[c]]
      | p :: ps => (c :: p) :: ps

/-- Node stored under a key. -/
def nodeAt (w : World) (k : Key) : Option Node :=
  w.fs.find? (fun n => decide (n.key = k))

/-- Whether a key is a directory: the root, the working directory and its
ancestors always are; otherwise the node under the key decides. -/
def isDirKey (w : World) (k : Key) : Bool :=
  decide (k <+: w.cwd) ||
    (match nodeAt w k with
      | some n => n.isDir
      | none => false)

/-- Path resolution, component by component: every component is looked up in a
directory; an empty component and `.` stay, `..` goes to the parent. -/
def walk (w : World) : Key → List Str → Option Key
  | cur, [] => some cur
  | cur, c :: rest =>
    if isDirKey w cur then
      if c = [] ∨ c = ['.'] then walk w cur rest
      else if c = ['.', '.'] then walk w cur.dropLast rest
      else walk w (cur ++ [c]) rest
    else none

/-- The key a path text denotes: from the root for an absolute path, from the
working directory otherwise; the empty path denotes nothing. The last
component need not exist. -/
def resolve (w : World) (path : Str) : Option Key :=
  if path = [] then none
  else walk w (if path.head? = some '/' then [] else w.cwd) (splitSlash path)

/-- Node a path text denotes, if any. -/
def findNode (w : World) (path : Str) : Option Node :=
  match resolve w path with
  | none => none
  | some k =>
    match nodeAt w k with
    | some n => some n
    | none => if k <+: w.cwd then some (Node.mk k true []) else none

/-- Go `os.Stat(name)` followed by `.Size()`; `none` is the error. -/
def osStat (w : World) (name : Str) : Option Nat :=
  (findNode w name).map (fun n => n.data.length)

/-- A directory entry: `Name()` and `IsDir()`. -/
structure DirEntry where
  name : Str
  isDir : Bool
  deriving DecidableEq, Repr

/-- Go `os.ReadDir(dir)`: the nodes lying directly in the directory, and the
next component of the working directory when the directory is one of its
proper ancestors. -/
def osReadDir (w : World) (dir : Str) : Option (List DirEntry) :=
  match resolve w dir with
  | none => none
  | some k =>
    if isDirKey w k then
      some ((w.fs.filter (fun n => decide (n.key ≠ [] ∧ n.key.dropLast = k))).map
          (fun n => DirEntry.mk (n.key.getLast?.getD []) n.isDir) ++
        (if k.length < w.cwd.length ∧ k <+: w.cwd ∧
            (nodeAt w (w.cwd.take (k.length + 1))).isNone = true then
          [DirEntry.mk (w.cwd.getD k.length []) true]
        else []))
    else none

/-- Go `os.OpenFile(name, O_RDWR|O_CREATE|O_APPEND, 0666)`: the new descriptor
and the new world; fails when the path does not resolve or denotes a
directory. An existing file is opened as it is. -/
def osOpenAppend (w : World) (name : Str) : Option (Nat × World) :=
  match resolve w name with
  | none => none
  | some k =>
    if isDirKey w k then none
    else
      match nodeAt w k with
      | some _ => some (w.fds.length, { w with fds := w.fds ++ [OpenFile.mk k true 0] })
      | none =>
        some (w.fds.length,
          { w with fs := w.fs ++ [Node.mk k false []],
                   fds := w.fds ++ [OpenFile.mk k true 0] })

/-- Go `os.Create(name)`: creates the file or truncates it to length 0; fails
when the path does not resolve or denotes a directory. -/
def osCreate (w : World) (name : Str) : Option (Nat × World) :=
  match resolve w name with
  | none => none
  | some k =>
    if isDirKey w k then none
    else
      match nodeAt w k with
      | some _ =>
        some (w.fds.length,
          { w with fs := w.fs.map (fun m => if m.key = k then { m with data := [] } else m),
                   fds := w.fds ++ [OpenFile.mk k false 0] })
      | none =>
        some (w.fds.length,
          { w with fs := w.fs ++ [Node.mk k false []],
                   fds := w.fds ++ [OpenFile.mk k false 0] })

/-- Bytes of a file after writing `bytes` at offset `pos` (a gap is zero-filled). -/
def writeAt (data : Str) (pos : Nat) (bytes : Str) : Str :=
  data.take pos ++ List.replicate (pos - data.length) (Char.ofNat 0) ++ bytes ++
    data.drop (pos + bytes.length)

/-- Write on an open file: at the end of the file for an `O_APPEND`
descriptor, at the descriptor's offset otherwise. -/
def osWrite (w : World) (fd : Nat) (bytes : Str) : World :=
  match w.fds[fd]? with
  | none => w
  | some h =>
    match nodeAt w h.key with
    | none => w
    | some n =>
      let pos := if h.append then n.data.length else h.pos
      { w with
        fs := w.fs.map (fun m =>
          if m.key = h.key then { m with data := writeAt m.data pos bytes } else m),
        fds := w.fds.set fd { h with pos := pos + bytes.length } }

/-- One `Write` call made by the logger on its current output. -/
def writeTo (w : World) (out : Writer) (line : Str) : World :=
  let w1 : World := { w with trace := w.trace ++ [(out, line)] }
  match out with
  | .stdout => { w1 with stdout := w1.stdout ++ line }
  | .stderr => { w1 with stderr := w1.stderr ++ line }
  | .file fd => osWrite w1 fd line

/-! ## The `Log` object -/

/-- Source: `type Log struct`. The `*log.Logger` is represented by its output and
its line header (`loggerOut`, `loggerPfx`); a nil `io.Writer` is `none`. -/
structure Log where
  packageName : Str
  loggerOut : Writer
  loggerPfx : Str
  writerOut : Writer
  writerErr : Writer
  fileOutName : Str
  fileErrName : Str
  fileOut : Option Nat
  fileErr : Option Nat
  fileOutNum : Int
  fileErrNum : Int
  maxSize : Int
  deriving DecidableEq, Repr

/-- Program state: the singleton `Log` and the environment. -/
structure St where
  log : Log
  w : World
  deriving DecidableEq, Repr

/-- Why a call did not return. -/
inductive Stop where
  | runtimeError
  | ioError
  | logPanic
  | osExit
  deriving DecidableEq, Repr

/-- Outcome of a call: it returned, or it stopped (run-time panic, `panic(err)`,
`Panicf`, `Fatalf`) in the given state. -/
inductive Res where
  | ok (s : St)
  | stop (why : Stop) (s : St)
  deriving DecidableEq, Repr

/-- Sequencing: continue only after a normal return. -/
def Res.andThen (r : Res) (f : St → Res) : Res :=
  match r with
  | .ok s => f s
  | .stop why s => .stop why s

/-- Source: `NewLog` (first call). -/
def NewLog : Log :=
  { packageName := [], loggerOut := .stdout, loggerPfx := [],
    writerOut := .stdout, writerErr := .stderr,
    fileOutName := [], fileErrName := [], fileOut := none, fileErr := none,
    fileOutNum := 0, fileErrNum := 0, maxSize := 0 }

/-! ## `getFileNum` and the setters -/

/-- The statement `if filename[len(filename)-4:] == ".log" { filename = filename[:len(filename)-4] }`. -/
def stripLog (filename : Str) : Except Stop Str :=
  match slice filename ((filename.length : Int) - 4) filename.length with
  | none => .error .runtimeError
  | some suf =>
    if suf = dotLog then
      match slice filename 0 ((filename.length : Int) - 4) with
      | none => .error .runtimeError
      | some f => .ok f
    else .ok filename

/-- Body of the `for _, file := range files` loop of `getFileNum`. -/
def getFileNumStep (filename : Str) (num : Int) (file : DirEntry) : Except Stop Int :=
  match slice file.name 0 (getIndexLogFile file.name - 1) with
  | none => .error .runtimeError
  | some truncFileName =>
    if !file.isDir && decide (truncFileName = filename) then
      if num < getNumLogFile file.name then .ok (getNumLogFile file.name) else .ok num
    else .ok num

/-- The `range files` loop of `getFileNum`. -/
def getFileNumLoop (filename : Str) : List DirEntry → Int → Except Stop Int
  | [], num => .ok num
  | file :: rest, num =>
    match getFileNumStep filename num file with
    | .error e => .error e
    | .ok num1 => getFileNumLoop filename rest num1

/-- Source: `getFileNum`. -/
def getFileNum (w : World) (filepath : Str) : Except Stop Int :=
  let split : Str × Str :=
    match lastIndexSlash filepath with
    | some k => (filepath.take k, filepath.drop (k + 1))
    | none => (['.'], filepath)
  match stripLog split.2 with
  | .error e => .error e
  | .ok filename =>
    match osReadDir w split.1 with
    | none => .error .ioError
    | some files => getFileNumLoop filename files 0

/-- The numbered name built by the setters:
`name + "." + Itoa(num) + ".log"`, or the same on `name[:len(name)-4]` when
`name` already ends in `".log"`. -/
def numberedName (name : Str) (num : Int) : Except Stop Str :=
  match slice name ((name.length : Int) - 4) name.length with
  | none => .error .runtimeError
  | some suf =>
    if suf ≠ dotLog then .ok (name ++ '.' :: Itoa num ++ dotLog)
    else
      match slice name 0 ((name.length : Int) - 4) with
      | none => .error .runtimeError
      | some b => .ok (b ++ '.' :: Itoa num ++ dotLog)

/-- Source: `SetFileOutName`. -/
def SetFileOutName (s : St) (fileOutName : Str) : Res :=
  if fileOutName ≠ [] then
    match getFileNum s.w fileOutName with
    | .error e => .stop e s
    | .ok num =>
      let s1 : St := { s with log := { s.log with fileOutNum := num } }
      match numberedName fileOutName num with
      | .error e => .stop e s1
      | .ok name =>
        match osOpenAppend s1.w name with
        | none => .stop .ioError s1
        | some (fd, w1) =>
          .ok { log := { s1.log with fileOutName := name, fileOut := some fd }, w := w1 }
  else .ok { s with log := { s.log with fileOutName := [], fileOut := none } }

/-- Source: `SetFileErrName`. -/
def SetFileErrName (s : St) (fileErrName : Str) : Res :=
  if fileErrName ≠ [] then
    match getFileNum s.w fileErrName with
    | .error e => .stop e s
    | .ok num =>
      let s1 : St := { s with log := { s.log with fileErrNum := num } }
      match numberedName fileErrName num with
      | .error e => .stop e s1
      | .ok name =>
        match osOpenAppend s1.w name with
        | none => .stop .ioError s1
        | some (fd, w1) =>
          .ok { log := { s1.log with fileErrName := name, fileErr := some fd }, w := w1 }
  else .ok { s with log := { s.log with fileErrName := [], fileErr := none } }

/-- Source: `SetMaxSize`. -/
def SetMaxSize (s : St) (maxSize : Int) : St :=
  { s with log := { s.log with maxSize := maxSize } }

/-! ## Rotation check, `Print` and the level methods -/

/-- The name assigned by a rotation:
`name[:len(name)-getIndexLogFile(name)] + Itoa(getNumLogFile(name)+1) + ".log"`. -/
def rotatedName (name : Str) : Except Stop Str :=
  match slice name 0 ((name.length : Int) - getIndexLogFile name) with
  | none => .error .runtimeError
  | some pre => .ok (pre ++ Itoa (wrapInt (getNumLogFile name + 1)) ++ dotLog)

/-- First half of `checkLogFileSize`: stat the general file and rotate it when
its size has reached `maxSize` (the name field is assigned before `os.Create`). -/
def checkOut (s : St) : Res :=
  match osStat s.w s.log.fileOutName with
  | none => .stop .ioError s
  | some size =>
    if s.log.maxSize ≤ (size : Int) then
      match rotatedName s.log.fileOutName with
      | .error e => .stop e s
      | .ok name =>
        let s1 : St := { s with log := { s.log with fileOutName := name } }
        match osCreate s1.w name with
        | none => .stop .ioError s1
        | some (fd, w1) => .ok { log := { s1.log with fileOut := some fd }, w := w1 }
    else .ok s

/-- Second half of `checkLogFileSize`: the same on the error file. -/
def checkErr (s : St) : Res :=
  match osStat s.w s.log.fileErrName with
  | none => .stop .ioError s
  | some size =>
    if s.log.maxSize ≤ (size : Int) then
      match rotatedName s.log.fileErrName with
      | .error e => .stop e s
      | .ok name =>
        let s1 : St := { s with log := { s.log with fileErrName := name } }
        match osCreate s1.w name with
        | none => .stop .ioError s1
        | some (fd, w1) => .ok { log := { s1.log with fileErr := some fd }, w := w1 }
    else .ok s

/-- Source: `checkLogFileSize`. -/
def checkLogFileSize (s : St) : Res :=
  (checkOut s).andThen checkErr

/-- What `Print` obtains from the Go runtime: `runtime.FuncForPC(pc).Name()`
and the `file`, `line`, `ok` results of `runtime.Caller(2)`. When the frame is
unavailable, `ok` is false and the name is empty. -/
structure Caller where
  funcName : Str
  file : Str
  line : Int
  ok : Bool
  deriving DecidableEq, Repr

/-- The `for i := len(file) - 1; i > 0; i--` loop of `Print` computing `short`. -/
def shortLoop (file : Str) : Nat → Str
  | 0 => file
  | i + 1 => if file[i + 1]? = some '/' then file.drop (i + 2) else shortLoop file i

/-- The line a `*log.Logger` with flags `LstdFlags|Lmicroseconds` writes: its
header, the time text, the message, and a newline unless the message ends
with one. -/
def renderLine (pfx stamp msg : Str) : Str :=
  pfx ++ stamp ++ msg ++ (if msg.getLast? = some (Char.ofNat 10) then [] else [Char.ofNat 10])

/-- The names `Print` derives from the split function name: the function name
and the package name; `none` is the run-time panic of `parts[pl-2][0]`. -/
def callerNames (parts : List Str) : Option (Str × Str) :=
  let pl := parts.length
  match parts[pl - 1]? with
  | none => none
  | some funcName =>
    if pl < 2 then none
    else
      match parts[pl - 2]? with
      | none => none
      | some seg =>
        match seg with
        | [] => none
        | c0 :: _ =>
          if c0 = '(' then some (seg ++ '.' :: funcName, joinDot (parts.take (pl - 2)))
          else some (funcName, joinDot (parts.take (pl - 1)))

/-- The argument of `SetPrefix` in `Print`. -/
def linePfx (packageName funcName level short : Str) (line : Int) : Str :=
  '[' :: packageName ++ ':' :: funcName ++ "] | ".toList ++ level ++ " : ".toList ++
    short ++ ':' :: Itoa line ++ ": ".toList

/-- The assignment to `log.packageName` followed by `log.logger.SetPrefix(..)`. -/
def setHeader (s : St) (packageName pfx : Str) : St :=
  { s with log := { s.log with packageName := packageName, loggerPfx := pfx } }

/-- Source: `Print`. The parameter `c` is what the runtime reports for the caller,
`stamp` the time text of this write and `msg` the rendered `data, v...`. -/
def Print (s : St) (c : Caller) (stamp msg level : Str) (exit : Bool) : Res :=
  let parts := splitDot c.funcName
  let file : Str := if c.ok then c.file else "???".toList
  let line : Int := if c.ok then c.line else 0
  let short := shortLoop file (file.length - 1)
  match callerNames parts with
  | none => .stop .runtimeError s
  | some (funcName, packageName) =>
    let s1 : St := setHeader s packageName (linePfx packageName funcName level short line)
    (checkLogFileSize s1).andThen fun s2 =>
      let s3 : St :=
        { s2 with w := writeTo s2.w s2.log.loggerOut (renderLine s2.log.loggerPfx stamp msg) }
      if level = "FATAL".toList ∧ exit = true then .stop .osExit s3
      else if level = "ERROR".toList ∧ exit = true then .stop .logPanic s3
      else .ok s3

/-- The `SetOutput` call of the level methods. -/
def setOutput (s : St) (out : Writer) : St :=
  { s with log := { s.log with loggerOut := out } }

/-- Common shape of `Info`, `Debug` and `Warn`: standard out, then the general
file when it is configured. -/
def plainLevel (level : Str) (s : St) (c : Caller) (t1 t2 msg : Str) : Res :=
  (Print (setOutput s s.log.writerOut) c t1 msg level false).andThen fun s1 =>
    match s1.log.fileOut with
    | some fd => Print (setOutput s1 (.file fd)) c t2 msg level false
    | none => .ok s1

/-- Source: `Info`. -/
def Info (s : St) (c : Caller) (t1 t2 msg : Str) : Res :=
  plainLevel "INFO".toList s c t1 t2 msg

/-- Source: `Debug`. -/
def Debug (s : St) (c : Caller) (t1 t2 msg : Str) : Res :=
  plainLevel "DEBUG".toList s c t1 t2 msg

/-- Source: `Warn`. -/
def Warn (s : St) (c : Caller) (t1 t2 msg : Str) : Res :=
  plainLevel "WARN".toList s c t1 t2 msg

/-- Common shape of `Error` and `Fatal`: the general file and the error file
when configured, then standard error with `exit` set. -/
def abortLevel (level : Str) (s : St) (c : Caller) (t1 t2 t3 msg : Str) : Res :=
  (match s.log.fileOut with
    | some fd => Print (setOutput s (.file fd)) c t1 msg level false
    | none => .ok s).andThen fun s1 =>
  (match s1.log.fileErr with
    | some fd => Print (setOutput s1 (.file fd)) c t2 msg level false
    | none => .ok s1).andThen fun s2 =>
  Print (setOutput s2 s2.log.writerErr) c t3 msg level true

/-- Source: `Error`. -/
def Error (s : St) (c : Caller) (t1 t2 t3 msg : Str) : Res :=
  abortLevel "ERROR".toList s c t1 t2 t3 msg

/-- Source: `Fatal`. -/
def Fatal (s : St) (c : Caller) (t1 t2 t3 msg : Str) : Res :=
  abortLevel "FATAL".toList s c t1 t2 t3 msg

/-! ## Observations and scenarios used by the statements -/

/-- The file name `<B>.<ds>.log`. -/
def logName (B ds : Str) : Str := B ++ '.' :: ds ++ dotLog

/-- Bytes stored under a path, when it denotes a node. -/
def fileData (w : World) (name : Str) : Option Str :=
  (findNode w name).map (fun n => n.data)

/-- State in which a call ended, whether it returned or stopped. -/
def Res.state : Res → St
  | .ok s => s
  | .stop _ s => s

/-- An environment whose working directory is the root and holds the given
regular files; nothing open, nothing written. -/
def worldOf (files : List (String × Str)) : World :=
  { fs := files.map (fun f => Node.mk [f.1.toList] false f.2), cwd := [],
    fds := [], stdout := [], stderr := [], trace := [] }

/-- A caller `main.main` at `/src/main.go:12`. -/
def mainCaller : Caller :=
  { funcName := "main.main".toList, file := "/src/main.go".toList, line := 12, ok := true }

/-- Configure both sinks and the threshold on a fresh `Log`, in the order
general name, error name, size. -/
def configure (w : World) (fileOutName fileErrName : String) (maxSize : Int) : Res :=
  ((SetFileOutName { log := NewLog, w := w } fileOutName.toList).andThen fun s =>
    SetFileErrName s fileErrName.toList).andThen fun s => .ok (SetMaxSize s maxSize)

/-- The scenario of the specification: `app.0.log` already at 100 bytes, threshold 100. -/
def appFull : Res :=
  configure (worldOf [("app.0.log", List.replicate 100 'x')]) "app.log" "err.log" 100

/-- The restart scenario of the specification: `err.0.log` (40 bytes) and
`err.1.log` (12 bytes) present. -/
def errDir : World :=
  worldOf [("err.0.log", List.replicate 40 'e'), ("err.1.log", List.replicate 12 'f')]

/-- The restart scenario configured with threshold 40: general name `out.log`,
error name `err.log`. -/
def errFull : Res := configure errDir "out.log" "err.log" 40

/-- Effect of a successful `os.Create` on the file under key `k`. -/
structure Created (w w1 : World) (k : Key) : Prop where
  cwd : w1.cwd = w.cwd
  fds : w1.fds = w.fds ++ [OpenFile.mk k false 0]
  stdout : w1.stdout = w.stdout
  stderr : w1.stderr = w.stderr
  trace : w1.trace = w.trace
  dirKey : ∀ j, isDirKey w1 j = isDirKey w j
  here : ∃ n, nodeAt w1 k = some n ∧ n.data = []
  other : ∀ j, j ≠ k → nodeAt w1 j = nodeAt w j

/-- A directory whose files `my.log.0.log` and `err.0.log` both hold 100 bytes,
configured with general name `my.log.log`, error name `err.log`, threshold 100. -/
def bothFull : Res :=
  configure
    (worldOf [("my.log.0.log", List.replicate 100 'x'), ("err.0.log", List.replicate 100 'e')])
    "my.log.log" "err.log" 100

/-- Both sinks configured on `abcd.log` with `abcd.9.log` present at 100 bytes and
threshold 100; three `Info` calls (the first rotates both sinks to
`abcd.10.log`, which then grows to 123 bytes); then `SetFileOutName("abcd.log")`
again, which puts the general sink back on `abcd.9.log`. -/
def crossed : Res :=
  ((((configure (worldOf [("abcd.9.log", List.replicate 100 'x')]) "abcd.log" "abcd.log"
      100).andThen
    fun s => Info s mainCaller "t ".toList "t ".toList "hello".toList).andThen
    fun s => Info s mainCaller "t ".toList "t ".toList "hello".toList).andThen
    fun s => Info s mainCaller "t ".toList "t ".toList "hello".toList).andThen
    fun s => SetFileOutName s "abcd.log".toList

/-- A directory holding `abcdefghijklmnopqrstuv.9223372036854775807.log` at 100
bytes, configured with general name `abcdefghijklmnopqrstuv.log`, error name
`err.log`, threshold 100: the start-up scan resumes the general sink on that
file, whose number is the largest 64-bit `int`. -/
def lastNumber : Res :=
  configure
    (worldOf [("abcdefghijklmnopqrstuv.9223372036854775807.log", List.replicate 100 'x')])
    "abcdefghijklmnopqrstuv.log" "err.log" 100

/-- A directory holding `abcd.0.log` and `abcd.1.log`. -/
def abcdDir : World :=
  worldOf [("abcd.0.log", List.replicate 40 'e'), ("abcd.1.log", List.replicate 12 'f')]

/-- A directory holding `abcd.0.log` ... `abcd.5.log`, three bytes each. -/
def sixFiles : World :=
  worldOf [("abcd.0.log", "old".toList), ("abcd.1.log", "old".toList),
    ("abcd.2.log", "old".toList), ("abcd.3.log", "old".toList), ("abcd.4.log", "old".toList),
    ("abcd.5.log", "old".toList)]

/-! # Theorems -/

/-! ## Decimal rendering and parsing -/

theorem digitChar_spec (k : Nat) (hk : k < 10) :
    ('0' ≤ Nat.digitChar k ∧ Nat.digitChar k ≤ '9') ∧ (Nat.digitChar k).toNat - 48 = k ∧
      Nat.digitChar k ≠ '.' := by
  interval_cases k <;> decide

theorem parseUintStep_digit (n k : Nat) (hk : k < 10) (hn : n * 10 + k < 2 ^ 64) :
    parseUintStep (.ok n) (Nat.digitChar k) = .ok (n * 10 + k) := by
  obtain ⟨h1, h2, -⟩ := digitChar_spec k hk
  have hn2 : n * 10 + k < 18446744073709551616 := by norm_num at hn; exact hn
  simp [parseUintStep, h1, h2, hn2]

/-- The digits pushed by `Nat.toDigitsCore` in base 10: a non-empty, dot-free
block of decimal digits whose value is the number. -/
theorem toDigitsCore_spec (fuel : Nat) :
    ∀ (n : Nat) (acc : List Char), n < fuel → n < 2 ^ 64 →
      ∃ ds : List Char, Nat.toDigitsCore 10 fuel n acc = ds ++ acc ∧ ds ≠ [] ∧
        (∀ c ∈ ds, c ≠ '.') ∧ (∀ c ∈ ds, '0' ≤ c ∧ c ≤ '9') ∧
        ds.foldl parseUintStep (.ok 0) = .ok n := by
  induction fuel with
  | zero => intro n acc h; omega
  | succ fuel ih =>
    intro n acc hfuel hn
    have hk : n % 10 < 10 := Nat.mod_lt _ (by decide)
    obtain ⟨hd, hv, hdot⟩ := digitChar_spec (n % 10) hk
    by_cases h0 : n / 10 = 0
    · refine ⟨[Nat.digitChar (n % 10)], ?_, by simp, ?_, ?_, ?_⟩
      · simp [Nat.toDigitsCore, h0]
      · intro c hc; simp at hc; subst hc; exact hdot
      · intro c hc; simp at hc; subst hc; exact hd
      · have hlt : n < 10 := by omega
        have : n % 10 = n := Nat.mod_eq_of_lt hlt
        simp only [List.foldl_cons, List.foldl_nil]
        rw [parseUintStep_digit 0 (n % 10) hk (by omega)]
        simp [this]
    · have hlt : n / 10 < fuel := by omega
      obtain ⟨ds, hds, hne, hnd, hdg, hval⟩ :=
        ih (n / 10) (Nat.digitChar (n % 10) :: acc) hlt (by omega)
      refine ⟨ds ++ [Nat.digitChar (n % 10)], ?_, by simp, ?_, ?_, ?_⟩
      · simp [Nat.toDigitsCore, h0, hds]
      · intro c hc
        rcases List.mem_append.1 hc with h | h
        · exact hnd c h
        · simp at h; subst h; exact hdot
      · intro c hc
        rcases List.mem_append.1 hc with h | h
        · exact hdg c h
        · simp at h; subst h; exact hd
      · rw [List.foldl_append, hval]
        simp only [List.foldl_cons, List.foldl_nil]
        rw [parseUintStep_digit (n / 10) (n % 10) hk (by omega)]
        congr 1
        omega

theorem Itoa_natCast (N : Nat) : Itoa (N : Int) = Nat.toDigits 10 N := by
  simp [Itoa]

theorem Itoa_spec (N : Nat) (hN : N < 2 ^ 63) :
    Itoa (N : Int) ≠ [] ∧ (∀ c ∈ Itoa (N : Int), c ≠ '.') ∧ Atoi (Itoa (N : Int)) = N := by
  obtain ⟨ds, hds, hne, hnd, hdg, hval⟩ :=
    toDigitsCore_spec (N + 1) N [] (by omega) (by omega)
  have hI : Itoa (N : Int) = ds := by
    rw [Itoa_natCast, Nat.toDigits, hds, List.append_nil]
  rw [hI]
  refine ⟨hne, hnd, ?_⟩
  cases ds with
  | nil => exact absurd rfl hne
  | cons c rest =>
    have hc := hdg c (List.mem_cons_self _ _)
    have hplus : c ≠ '+' := by intro h; subst h; exact absurd hc (by decide)
    have hminus : c ≠ '-' := by intro h; subst h; exact absurd hc (by decide)
    have hlt : ¬ (9223372036854775808 ≤ N) := by norm_num at hN; omega
    simp [Atoi, hplus, hminus, ParseUint, hval, hlt]

/-! ## Parsing a name of the form `<B>.<digits>.log` -/

theorem getElem?_append_cons_here {α : Type} (pre : List α) (c : α) (rest : List α) :
    (pre ++ c :: rest)[pre.length]? = some c := by
  rw [List.getElem?_append_right (Nat.le_refl _)]
  simp

theorem logName_length (B ds : Str) : (logName B ds).length = B.length + ds.length + 5 := by
  simp [logName, dotLog]; omega

theorem logName_at_base (B ds : Str) : (logName B ds)[B.length]? = some '.' := by
  simp only [logName, List.append_assoc]
  exact getElem?_append_cons_here B '.' _

theorem logName_at_num (B ds : Str) (k : Nat) (hk : k < ds.length) :
    (logName B ds)[B.length + 1 + k]? = ds[k]? := by
  have h1 : B.length ≤ B.length + 1 + k := by omega
  have h2 : B.length + 1 + k - B.length = k + 1 := by omega
  simp only [logName, List.append_assoc]
  rw [List.getElem?_append_right h1, h2]
  simp [List.getElem?_append_left, hk]

theorem logName_at_suffix (B ds : Str) (k : Nat) :
    (logName B ds)[B.length + 1 + ds.length + k]? = dotLog[k]? := by
  have h1 : B.length ≤ B.length + 1 + ds.length + k := by omega
  have h2 : B.length + 1 + ds.length + k - B.length = (ds.length + k) + 1 := by omega
  simp only [logName, List.append_assoc]
  rw [List.getElem?_append_right h1, h2]
  simp [List.getElem?_append_right]

/-- Every index strictly between the two dots, and every index after the last
dot, holds a byte other than a dot. -/
theorem logName_no_dot (B ds : Str) (hds : ∀ c ∈ ds, c ≠ '.') (j : Nat)
    (hj : (B.length < j ∧ j ≤ B.length + ds.length) ∨ B.length + ds.length + 1 < j) :
    (logName B ds)[j]? ≠ some '.' := by
  rcases hj with ⟨h1, h2⟩ | h
  · obtain ⟨k, rfl⟩ : ∃ k, j = B.length + 1 + k := ⟨j - (B.length + 1), by omega⟩
    have hk : k < ds.length := by omega
    rw [logName_at_num B ds k hk, List.getElem?_eq_getElem hk]
    intro hc
    exact hds _ (List.getElem_mem hk) (Option.some.inj hc)
  · obtain ⟨k, rfl⟩ : ∃ k, j = B.length + 1 + ds.length + (k + 1) :=
      ⟨j - (B.length + 1 + ds.length) - 1, by omega⟩
    rw [logName_at_suffix]
    match k with
    | 0 => decide
    | 1 => decide
    | 2 => decide
    | k + 3 => simp [dotLog]

theorem getIndexLogFileLoop_skip (name : Str) (c : Nat) (hc : c ≠ 2) (m : Nat) :
    ∀ i, m ≤ i → (∀ j, m < j → j ≤ i → name[j]? ≠ some '.') →
      getIndexLogFileLoop name i c = getIndexLogFileLoop name m c := by
  intro i
  induction i with
  | zero => intro hm _; have : m = 0 := by omega
            subst this; rfl
  | succ i ih =>
    intro hm hno
    by_cases hmi : m = i + 1
    · subst hmi; rfl
    · have h1 : name[i + 1]? ≠ some '.' := hno (i + 1) (by omega) (by omega)
      rw [getIndexLogFileLoop]
      simp only [h1, if_false, hc]
      exact ih (by omega) (fun j hj1 hj2 => hno j hj1 (by omega))

theorem getNumLogFileLoop_skip (name : Str) (c : Nat) (hc : c ≠ 2) (m : Nat) :
    ∀ i, m ≤ i → (∀ j, m < j → j ≤ i → name[j]? ≠ some '.') →
      getNumLogFileLoop name i c = getNumLogFileLoop name m c := by
  intro i
  induction i with
  | zero => intro hm _; have : m = 0 := by omega
            subst this; rfl
  | succ i ih =>
    intro hm hno
    by_cases hmi : m = i + 1
    · subst hmi; rfl
    · have h1 : name[i + 1]? ≠ some '.' := hno (i + 1) (by omega) (by omega)
      rw [getNumLogFileLoop]
      simp only [h1, if_false, hc]
      exact ih (by omega) (fun j hj1 hj2 => hno j hj1 (by omega))

/-- For every non-empty `B`, whatever its content, `getIndexLogFile` on
`<B>.<ds>.log` is the length of `<ds>.log`. -/
theorem getIndexLogFile_logName (B ds : Str) (hB : B ≠ []) (hds : ∀ c ∈ ds, c ≠ '.') :
    getIndexLogFile (logName B ds) = (ds.length : Int) + 4 := by
  obtain ⟨b, hb⟩ : ∃ b, B.length = b + 1 :=
    ⟨B.length - 1, by have := List.length_pos.2 hB; omega⟩
  have hlen := logName_length B ds
  unfold getIndexLogFile
  have e1 : (logName B ds).length - 1 = (B.length + ds.length) + 1 + 3 := by omega
  rw [e1, getIndexLogFileLoop_skip (logName B ds) 0 (by decide) ((B.length + ds.length) + 1) _
    (by omega) (fun j h1 h2 => logName_no_dot B ds hds j (Or.inr (by omega)))]
  have hdot : (logName B ds)[B.length + ds.length + 1]? = some '.' := by
    have := logName_at_suffix B ds 0
    simpa [dotLog, Nat.add_assoc, Nat.add_comm, Nat.add_left_comm] using this
  rw [getIndexLogFileLoop]
  simp only [hdot, if_true]
  rw [if_neg (by decide)]
  rw [getIndexLogFileLoop_skip (logName B ds) 1 (by decide) B.length _ (by omega)
    (fun j h1 h2 => logName_no_dot B ds hds j (Or.inl ⟨h1, h2⟩))]
  have hdot2 : (logName B ds)[b + 1]? = some '.' := by rw [← hb]; exact logName_at_base B ds
  rw [hb, getIndexLogFileLoop]
  simp only [hdot2, if_true]
  rw [hlen, hb]
  push_cast
  omega

theorem numLoop_scan (post : Str) :
    ∀ (ds pre num : Str) (n : Nat), (∀ c ∈ ds, c ≠ '.') → ds.length < n →
      numLoop (pre ++ ds ++ '.' :: post) n pre.length num = .ret (Atoi (num ++ ds)) := by
  intro ds
  induction ds with
  | nil =>
    intro pre num n _ hn
    obtain ⟨n, rfl⟩ : ∃ k, n = k + 1 := ⟨n - 1, by simp at hn; omega⟩
    have hget : (pre ++ [] ++ '.' :: post)[pre.length]? = some '.' := by
      rw [List.append_nil]; exact getElem?_append_cons_here pre '.' post
    rw [numLoop, hget]
    simp
  | cons c t ih =>
    intro pre num n hds hn
    obtain ⟨n, rfl⟩ : ∃ k, n = k + 1 := ⟨n - 1, by simp at hn; omega⟩
    have hc : c ≠ '.' := hds c (List.mem_cons_self _ _)
    have hget : (pre ++ c :: t ++ '.' :: post)[pre.length]? = some c := by
      rw [List.append_assoc]; exact getElem?_append_cons_here pre c _
    have hgetD : (pre ++ c :: t ++ '.' :: post).getD pre.length (Char.ofNat 0) = c := by
      rw [List.getD_eq_getElem?_getD, hget]; rfl
    rw [numLoop, hget, hgetD]
    simp only [Option.some.injEq, hc, if_false]
    have := ih (pre ++ [c]) (num ++ [c]) n (fun x hx => hds x (List.mem_cons_of_mem _ hx))
      (by simp at hn; omega)
    simpa using this

/-- For every non-empty `B`, whatever its content, `getNumLogFile` on
`<B>.<ds>.log` is `Atoi(ds)`. -/
theorem getNumLogFile_logName (B ds : Str) (hB : B ≠ []) (hds : ∀ c ∈ ds, c ≠ '.') :
    getNumLogFile (logName B ds) = Atoi ds := by
  obtain ⟨b, hb⟩ : ∃ b, B.length = b + 1 :=
    ⟨B.length - 1, by have := List.length_pos.2 hB; omega⟩
  have hlen := logName_length B ds
  unfold getNumLogFile
  have e1 : (logName B ds).length - 1 = (B.length + ds.length) + 1 + 3 := by omega
  rw [e1, getNumLogFileLoop_skip (logName B ds) 0 (by decide) ((B.length + ds.length) + 1) _
    (by omega) (fun j h1 h2 => logName_no_dot B ds hds j (Or.inr (by omega)))]
  have hdot : (logName B ds)[B.length + ds.length + 1]? = some '.' := by
    have := logName_at_suffix B ds 0
    simpa [dotLog, Nat.add_assoc, Nat.add_comm, Nat.add_left_comm] using this
  rw [getNumLogFileLoop]
  simp only [hdot, if_true]
  rw [if_neg (by decide)]
  rw [getNumLogFileLoop_skip (logName B ds) 1 (by decide) B.length _ (by omega)
    (fun j h1 h2 => logName_no_dot B ds hds j (Or.inl ⟨h1, h2⟩))]
  have hdot2 : (logName B ds)[b + 1]? = some '.' := by rw [← hb]; exact logName_at_base B ds
  rw [hb, getNumLogFileLoop]
  simp only [hdot2, if_true]
  have hscan := numLoop_scan ['l', 'o', 'g'] ds (B ++ ['.']) []
    ((logName B ds).length - 1 - (b + 2)) hds (by omega)
  have hname : B ++ ['.'] ++ ds ++ '.' :: ['l', 'o', 'g'] = logName B ds := by
    simp [logName, dotLog]
  rw [hname] at hscan
  have hl : (B ++ ['.']).length = b + 2 := by simp [hb]
  rw [hl] at hscan
  rw [hscan]
  simp

/-! ## The rotated name -/

theorem wrapInt_succ (N : Nat) (hN : N + 1 < 2 ^ 63) : wrapInt ((N : Int) + 1) = ((N + 1 : Nat) : Int) := by
  unfold wrapInt
  norm_num at hN
  push_cast
  omega

/-- The rotation of `<B>.<N>.log` is `<B>.<N+1>.log`, for every non-empty `B`. -/
theorem rotatedName_logName (B : Str) (N : Nat) (hB : B ≠ []) (hN : N + 1 < 2 ^ 63) :
    rotatedName (logName B (Itoa (N : Int))) = .ok (logName B (Itoa ((N + 1 : Nat) : Int))) := by
  obtain ⟨-, hnd, hat⟩ := Itoa_spec N (by omega)
  have hidx := getIndexLogFile_logName B (Itoa (N : Int)) hB hnd
  have hnum := getNumLogFile_logName B (Itoa (N : Int)) hB hnd
  have hlen := logName_length B (Itoa (N : Int))
  unfold rotatedName slice
  rw [hidx, hnum, hat, wrapInt_succ N hN, hlen]
  have hc : (0 : Int) ≤ 0 ∧
      (0 : Int) ≤ ((B.length + (Itoa (N : Int)).length + 5 : Nat) : Int) -
        (((Itoa (N : Int)).length : Int) + 4) ∧
      ((B.length + (Itoa (N : Int)).length + 5 : Nat) : Int) -
        (((Itoa (N : Int)).length : Int) + 4) ≤
        ((B.length + (Itoa (N : Int)).length + 5 : Nat) : Int) := by
    refine ⟨Int.le_refl 0, ?_, ?_⟩ <;> push_cast <;> omega
  rw [if_pos hc]
  have ht : (((B.length + (Itoa (N : Int)).length + 5 : Nat) : Int) -
      (((Itoa (N : Int)).length : Int) + 4)).toNat = B.length + 1 := by
    push_cast; omega
  simp only [ht, Int.toNat_zero, List.drop_zero]
  have htake : List.take (B.length + 1) (logName B (Itoa (N : Int))) = B ++ ['.'] := by
    simp [logName, List.take_append_eq_append_take, List.take_of_length_le]
  rw [htake]
  simp [logName]

/-! ## The file system under `os.Create` -/

theorem nodeAt_map (w : World) (f : Node → Node) (hf : ∀ m, (f m).key = m.key) (j : Key) :
    (w.fs.map f).find? (fun n => decide (n.key = j)) = (nodeAt w j).map f := by
  unfold nodeAt
  rw [List.find?_map]
  congr 2
  funext m
  simp [Function.comp, hf]

theorem nodeAt_key (w : World) (j : Key) (n : Node) (h : nodeAt w j = some n) : n.key = j := by
  unfold nodeAt at h
  simpa using List.find?_some h

theorem walk_congr (w w1 : World) (h : ∀ k, isDirKey w1 k = isDirKey w k) :
    ∀ (comps : List Str) (cur : Key), walk w1 cur comps = walk w cur comps := by
  intro comps
  induction comps with
  | nil => intro cur; rfl
  | cons c rest ih =>
    intro cur
    simp only [walk, h, ih]

theorem resolve_congr (w w1 : World) (hcwd : w1.cwd = w.cwd)
    (h : ∀ k, isDirKey w1 k = isDirKey w k) (p : Str) : resolve w1 p = resolve w p := by
  unfold resolve
  rw [hcwd]
  split
  · rfl
  · exact walk_congr w w1 h _ _

/-- A successful `os.Create` resolved its path to a key that is no directory, handed out
the next descriptor, and left the file under that key empty and every other
node as it was. -/
theorem osCreate_spec (w : World) (name : Str) (fd : Nat) (w1 : World)
    (h : osCreate w name = some (fd, w1)) :
    ∃ k, resolve w name = some k ∧ fd = w.fds.length ∧ Created w w1 k := by
  unfold osCreate at h
  cases hr : resolve w name with
  | none => simp [hr] at h
  | some k =>
    simp only [hr] at h
    cases hd : isDirKey w k with
    | true => simp [hd] at h
    | false =>
      simp only [hd, Bool.false_eq_true, if_false] at h
      refine ⟨k, rfl, ?_⟩
      cases hn : nodeAt w k with
      | some n =>
        simp only [hn, Option.some.injEq, Prod.mk.injEq] at h
        obtain ⟨rfl, rfl⟩ := h
        have hf : ∀ m : Node, (if m.key = k then { m with data := [] } else m).key = m.key := by
          intro m; split <;> rfl
        have hfd : ∀ m : Node,
            (if m.key = k then { m with data := [] } else m).isDir = m.isDir := by
          intro m; split <;> rfl
        have hnode : ∀ j, nodeAt
            { w with fs := w.fs.map (fun m => if m.key = k then { m with data := [] } else m),
                     fds := w.fds ++ [OpenFile.mk k false 0] } j =
            (nodeAt w j).map (fun m => if m.key = k then { m with data := [] } else m) :=
          fun j => nodeAt_map w _ hf j
        refine ⟨rfl, ⟨rfl, rfl, rfl, rfl, rfl, ?_, ?_, ?_⟩⟩
        · intro j
          unfold isDirKey
          rw [hnode j]
          cases nodeAt w j with
          | none => rfl
          | some m => simp only [Option.map_some', hfd]
        · refine ⟨_, by rw [hnode k, hn]; rfl, ?_⟩
          have hk := nodeAt_key w k n hn
          simp [hk]
        · intro j hj
          rw [hnode j]
          cases hq : nodeAt w j with
          | none => rfl
          | some m =>
            have hm := nodeAt_key w j m hq
            simp [hm, hj]
      | none =>
        simp only [hn, Option.some.injEq, Prod.mk.injEq] at h
        obtain ⟨rfl, rfl⟩ := h
        have hnode : ∀ j, nodeAt
            { w with fs := w.fs ++ [Node.mk k false []],
                     fds := w.fds ++ [OpenFile.mk k false 0] } j =
            match nodeAt w j with
            | some m => some m
            | none => if k = j then some (Node.mk k false []) else none := by
          intro j
          unfold nodeAt
          simp only [List.find?_append]
          cases List.find? (fun n => decide (n.key = j)) w.fs with
          | some m => rfl
          | none => by_cases hkj : k = j <;> simp [List.find?, hkj]
        refine ⟨rfl, ⟨rfl, rfl, rfl, rfl, rfl, ?_, ?_, ?_⟩⟩
        · intro j
          unfold isDirKey
          rw [hnode j]
          cases hq : nodeAt w j with
          | some m => rfl
          | none =>
            by_cases hkj : k = j
            · simp [hkj]
            · simp [hkj]
        · refine ⟨Node.mk k false [], ?_, rfl⟩
          rw [hnode k, hn]
          simp
        · intro j hj
          rw [hnode j]
          cases hq : nodeAt w j with
          | some m => rfl
          | none => simp [Ne.symm hj]

theorem created_resolve {w w1 : World} {k : Key} (h : Created w w1 k) (p : Str) :
    resolve w1 p = resolve w p :=
  resolve_congr w w1 h.cwd h.dirKey p

theorem created_empty {w w1 : World} {k : Key} (h : Created w w1 k) (p : Str)
    (hp : resolve w p = some k) : fileData w1 p = some [] := by
  obtain ⟨n, hn, hd⟩ := h.here
  unfold fileData findNode
  rw [created_resolve h p, hp]
  simp only [hn, Option.map_some', hd]

/-- After `os.Create` every path holds what it held, or an empty file. -/
theorem created_kept {w w1 : World} {k : Key} (h : Created w w1 k) (q : Str) :
    fileData w1 q = fileData w q ∨ fileData w1 q = some [] := by
  cases hq : resolve w q with
  | none =>
    left
    unfold fileData findNode
    rw [created_resolve h q, hq]
  | some j =>
    by_cases hj : j = k
    · right
      exact created_empty h q (hj ▸ hq)
    · left
      unfold fileData findNode
      rw [created_resolve h q, hq]
      simp only [h.other j hj, h.cwd]

theorem created_fds {w w1 : World} {k : Key} (h : Created w w1 k) (i : Nat) (o : OpenFile)
    (ho : w.fds[i]? = some o) : w1.fds[i]? = some o := by
  have hlt : i < w.fds.length := by
    by_contra hge
    rw [List.getElem?_eq_none (by omega)] at ho
    exact absurd ho (by simp)
  rw [h.fds, List.getElem?_append_left hlt]
  exact ho

theorem created_new_fd {w w1 : World} {k : Key} (h : Created w w1 k) :
    w1.fds[w.fds.length]? = some (OpenFile.mk k false 0) := by
  rw [h.fds]
  exact getElem?_append_cons_here _ _ _

/-! ## Caller resolution, the start-up scan and short names -/

/-- C10 (fails on the code). When the frame is unavailable (`ok` false, empty
function name) `Print` does not reach the sentinel header: for every state,
level and message it stops with a run-time error at `parts[pl-2]`, before the
rotation check and before any write, leaving the state as it was. -/
theorem Print_stops_when_frame_unavailable (s : St) (file : Str) (line : Int)
    (stamp msg level : Str) (exit : Bool) :
    Print s { funcName := [], file := file, line := line, ok := false } stamp msg level exit =
      .stop .runtimeError s := by
  simp [Print, splitDot, callerNames]

/-- Where the function name has at least two dot segments and the second-to-last is
not empty, the names are derived as the specification describes: a segment
beginning with `(` is joined to the function name, otherwise it stays in the
package path. -/
theorem callerNames_of_segments (pre : List Str) (c0 : Char) (rest fn : Str) :
    callerNames (pre ++ [c0 :: rest, fn]) =
      some (if c0 = '(' then ((c0 :: rest) ++ '.' :: fn, joinDot pre)
        else (fn, joinDot (pre ++ [c0 :: rest]))) := by
  have hlen : (pre ++ [c0 :: rest, fn]).length = pre.length + 2 := by simp
  have h1 : (pre ++ [c0 :: rest, fn])[pre.length + 2 - 1]? = some fn := by
    have : pre.length + 2 - 1 = pre.length + 1 := by omega
    rw [this, List.getElem?_append_right (by omega)]
    simp
  have h2 : (pre ++ [c0 :: rest, fn])[pre.length + 2 - 2]? = some (c0 :: rest) := by
    have : pre.length + 2 - 2 = pre.length := by omega
    rw [this]
    exact getElem?_append_cons_here pre _ _
  have h3 : ¬ (pre.length + 2 < 2) := by omega
  have t1 : List.take (pre.length + 2 - 2) (pre ++ [c0 :: rest, fn]) = pre := by
    simp
  have t2 : List.take (pre.length + 2 - 1) (pre ++ [c0 :: rest, fn]) = pre ++ [c0 :: rest] := by
    have : pre.length + 2 - 1 = pre.length + 1 := by omega
    rw [this, List.take_append_eq_append_take]
    simp
  unfold callerNames
  simp only [hlen, h1, h2, h3, if_false, t1, t2]
  split <;> rfl

/-- C9 (fails on the code). For the runtime name of a generic function,
`main.Map[...]`, the second-to-last dot segment is empty, and `Print` stops
with a run-time error at `parts[pl-2][0]` instead of yielding the last segment
as function name; the same happens for a name without any dot. The witness
of the claim, `github.com/x/pkg.(*T).Run`, is resolved as the claim says. -/
theorem Print_stops_on_empty_receiver_segment (s : St) (file : Str) (line : Int)
    (stamp msg level : Str) (exit : Bool) :
    Print s { funcName := "main.Map[...]".toList, file := file, line := line, ok := true }
        stamp msg level exit = .stop .runtimeError s ∧
      Print s { funcName := "main".toList, file := file, line := line, ok := true }
        stamp msg level exit = .stop .runtimeError s ∧
      callerNames (splitDot "github.com/x/pkg.(*T).Run".toList) =
        some ("(*T).Run".toList, "github.com/x/pkg".toList) := by
  refine ⟨?_, ?_, by decide⟩
  · have h : callerNames (splitDot "main.Map[...]".toList) = none := by decide
    simp only [Print, h]
  · have h : callerNames (splitDot "main".toList) = none := by decide
    simp only [Print, h]

/-- C4 (fails on the code). With `err.0.log` and `err.1.log` in the directory,
`getFileNum` on `err.log` returns 0, not the maximum 1: the comparison is made
on the first `getIndexLogFile(name) - 1` bytes of the entry (`err.`), which
differ from the base `err`. And one entry with fewer than two dots (`README`)
stops the scan with a run-time error instead of being ignored. -/
theorem getFileNum_misses_numbered_files :
    getFileNum errDir "err.log".toList = .ok 0 ∧
      getFileNum (worldOf [("err.0.log", []), ("README", [])]) "err.log".toList =
        .error .runtimeError := by
  constructor <;> rfl

/-- C5 (fails on the code). For every non-empty file name shorter than four
bytes (such as `app`) `SetFileOutName` stops with a run-time error in
`getFileNum`, at `filename[len(filename)-4:]`, before any file is opened. -/
theorem SetFileOutName_stops_on_short_name (s : St) (F : Str) (hne : F ≠ [])
    (hlen : F.length < 4) : SetFileOutName s F = .stop .runtimeError s := by
  have hstrip : ∀ f : Str, f.length < 4 → stripLog f = .error .runtimeError := by
    intro f hf
    unfold stripLog slice
    have : ¬ ((0 : Int) ≤ (f.length : Int) - 4 ∧ (f.length : Int) - 4 ≤ (f.length : Int) ∧
        ((f.length : Nat) : Int) ≤ (f.length : Int)) := by omega
    simp only [this, if_false]
  have hnum : getFileNum s.w F = .error .runtimeError := by
    unfold getFileNum
    cases hl : lastIndexSlash F with
    | none => simp only [hstrip F hlen]
    | some k =>
      have : (F.drop (k + 1)).length < 4 := by simp; omega
      simp only [hstrip _ this]
  unfold SetFileOutName
  simp only [ne_eq, hne, not_false_eq_true, if_true, hnum]

/-- Witness for C5: the name `app` on a fresh `Log` in an empty directory. -/
theorem SetFileOutName_stops_on_short_name_witness :
    SetFileOutName { log := NewLog, w := worldOf [] } "app".toList =
      .stop .runtimeError { log := NewLog, w := worldOf [] } :=
  SetFileOutName_stops_on_short_name _ "app".toList (by decide) (by decide)

theorem osCreate_streams (w : World) (name : Str) (fd : Nat) (w1 : World)
    (h : osCreate w name = some (fd, w1)) :
    w1.stdout = w.stdout ∧ w1.stderr = w.stderr ∧ w1.trace = w.trace := by
  unfold osCreate at h
  split at h
  · exact absurd h (by simp)
  · split at h
    · exact absurd h (by simp)
    · split at h
      · simp only [Option.some.injEq, Prod.mk.injEq] at h
        obtain ⟨-, rfl⟩ := h
        exact ⟨rfl, rfl, rfl⟩
      · simp only [Option.some.injEq, Prod.mk.injEq] at h
        obtain ⟨-, rfl⟩ := h
        exact ⟨rfl, rfl, rfl⟩

theorem osStat_empty (w : World) : osStat w [] = none := by
  simp [osStat, findNode, resolve]

/-- The general half of the check either stops, or returns with the streams
and the error file name untouched. -/
theorem checkOut_streams (s : St) :
    (∃ why s1, checkOut s = .stop why s1 ∧ s1.w = s.w) ∨
      (∃ s1, checkOut s = .ok s1 ∧ s1.w.stdout = s.w.stdout ∧ s1.w.trace = s.w.trace ∧
        s1.log.fileErrName = s.log.fileErrName ∧ s.log.fileOutName ≠ []) := by
  unfold checkOut
  cases hs : osStat s.w s.log.fileOutName with
  | none => left; exact ⟨.ioError, s, rfl, rfl⟩
  | some size =>
    have hne : s.log.fileOutName ≠ [] := by
      intro h; rw [h, osStat_empty] at hs; exact absurd hs (by simp)
    by_cases hm : s.log.maxSize ≤ (size : Int)
    · simp only [hm, if_true]
      cases hr : rotatedName s.log.fileOutName with
      | error e => left; exact ⟨e, s, rfl, rfl⟩
      | ok name =>
        cases hc : osCreate s.w name with
        | none =>
          left
          exact ⟨.ioError, St.mk { s.log with fileOutName := name } s.w, by simp only [hc], rfl⟩
        | some r =>
          obtain ⟨fd, w1⟩ := r
          obtain ⟨h1, -, h3⟩ := osCreate_streams _ _ _ _ hc
          right
          exact ⟨St.mk { s.log with fileOutName := name, fileOut := some fd } w1,
            by simp only [hc], h1, h3, rfl, hne⟩
    · simp only [hm, if_false]
      right
      exact ⟨s, rfl, rfl, rfl, rfl, hne⟩

/-- With an empty general or error file name the rotation check stops, and
nothing has been written. -/
theorem checkLogFileSize_stops (s : St) (h : s.log.fileOutName = [] ∨ s.log.fileErrName = []) :
    ∃ why s1, checkLogFileSize s = .stop why s1 ∧ s1.w.stdout = s.w.stdout ∧
      s1.w.trace = s.w.trace := by
  unfold checkLogFileSize
  rcases checkOut_streams s with ⟨why, s1, h1, hw⟩ | ⟨s1, h1, hso, htr, hname, hne⟩
  · exact ⟨why, s1, by rw [h1]; rfl, by rw [hw], by rw [hw]⟩
  · have herr : s1.log.fileErrName = [] := by
      rcases h with h | h
      · exact absurd h hne
      · rw [hname, h]
    refine ⟨.ioError, s1, ?_, hso, htr⟩
    rw [h1]
    show checkErr s1 = _
    unfold checkErr
    rw [herr, osStat_empty]

theorem Print_stops_without_names (s : St) (c : Caller) (stamp msg level : Str) (exit : Bool)
    (h : s.log.fileOutName = [] ∨ s.log.fileErrName = []) :
    ∃ why s1, Print s c stamp msg level exit = .stop why s1 ∧ s1.w.stdout = s.w.stdout ∧
      s1.w.trace = s.w.trace := by
  cases hn : callerNames (splitDot c.funcName) with
  | none => exact ⟨.runtimeError, s, by simp only [Print, hn], rfl, rfl⟩
  | some names =>
    obtain ⟨fn, pkg⟩ := names
    obtain ⟨why, s1, h1, h2, h3⟩ := checkLogFileSize_stops
      (setHeader s pkg (linePfx pkg fn level
        (shortLoop (if c.ok then c.file else "???".toList)
          ((if c.ok then c.file else "???".toList).length - 1))
        (if c.ok then c.line else 0))) h
    exact ⟨why, s1, by simp only [Print, hn, h1, Res.andThen], h2, h3⟩

theorem plainLevel_stops_without_names (level : Str) (s : St) (c : Caller) (t1 t2 msg : Str)
    (h : s.log.fileOutName = [] ∨ s.log.fileErrName = []) :
    ∃ why s1, plainLevel level s c t1 t2 msg = .stop why s1 ∧ s1.w.stdout = s.w.stdout ∧
      s1.w.trace = s.w.trace := by
  obtain ⟨why, s1, h1, h2, h3⟩ :=
    Print_stops_without_names (setOutput s s.log.writerOut) c t1 msg level false h
  exact ⟨why, s1, by unfold plainLevel; rw [h1]; rfl, h2, h3⟩

/-- C6 (fails on the code). Whenever the general file name, the error file
name, or both are empty, `Debug`, `Info` and `Warn` stop (a panic) inside the
first `Print`, at the latest at `os.Stat("")` in `checkLogFileSize`; nothing has
been written to standard out at that point. -/
theorem plain_levels_stop_without_file_names (s : St) (c : Caller) (t1 t2 msg : Str)
    (h : s.log.fileOutName = [] ∨ s.log.fileErrName = []) :
    (∃ why s1, Debug s c t1 t2 msg = .stop why s1 ∧ s1.w.stdout = s.w.stdout ∧
        s1.w.trace = s.w.trace) ∧
      (∃ why s1, Info s c t1 t2 msg = .stop why s1 ∧ s1.w.stdout = s.w.stdout ∧
        s1.w.trace = s.w.trace) ∧
      (∃ why s1, Warn s c t1 t2 msg = .stop why s1 ∧ s1.w.stdout = s.w.stdout ∧
        s1.w.trace = s.w.trace) :=
  ⟨plainLevel_stops_without_names _ s c t1 t2 msg h,
    plainLevel_stops_without_names _ s c t1 t2 msg h,
    plainLevel_stops_without_names _ s c t1 t2 msg h⟩

/-- Witness for C6: on a fresh `Log` with no file name set, `Info` stops with the
I/O panic right after the header is installed, and standard out is still empty. -/
theorem plain_levels_stop_without_file_names_witness :
    (NewLog.fileOutName = [] ∨ NewLog.fileErrName = []) ∧
      Info { log := NewLog, w := worldOf [] } mainCaller [] [] "x".toList =
        .stop .ioError
          (setHeader { log := NewLog, w := worldOf [] } "main".toList
            "[main:main] | INFO : main.go:12: ".toList) ∧
      ∃ why s1, Info { log := NewLog, w := worldOf [] } mainCaller [] [] "x".toList =
        .stop why s1 ∧ s1.w.stdout = [] ∧ s1.w.trace = [] :=
  ⟨Or.inl rfl, by decide,
    (plain_levels_stop_without_file_names { log := NewLog, w := worldOf [] } mainCaller [] []
      "x".toList (Or.inl rfl)).2.1⟩

/-! ## The level methods -/

theorem Print_stops_on_generic_name (s : St) (file : Str) (line : Int) (stamp msg level : Str)
    (exit : Bool) :
    Print s { funcName := "main.Map[...]".toList, file := file, line := line, ok := true }
      stamp msg level exit = .stop .runtimeError s := by
  have h : callerNames (splitDot "main.Map[...]".toList) = none := by decide
  simp only [Print, h]

/-- C7 (fails on the code). An `Error` or `Fatal` call made inside a generic function, whose
runtime name is `main.Map[...]`, stops with a run-time error in its first
`Print`, at `parts[pl-2][0]`: for every state with the general sink configured
the call ends before anything is written. The environment (files,
descriptors, standard error) is the one before the call, and the stop is the
index panic, for `Fatal` as well, not the panic of `Panicf` or the exit of
`Fatalf`. -/
theorem Error_Fatal_stop_before_any_write (s : St) (fdO : Nat) (file : Str) (line : Int)
    (t1 t2 t3 msg : Str) (hout : s.log.fileOut = some fdO) :
    Error s { funcName := "main.Map[...]".toList, file := file, line := line, ok := true }
        t1 t2 t3 msg = .stop .runtimeError (setOutput s (.file fdO)) ∧
      Fatal s { funcName := "main.Map[...]".toList, file := file, line := line, ok := true }
        t1 t2 t3 msg = .stop .runtimeError (setOutput s (.file fdO)) ∧
      (setOutput s (.file fdO)).w = s.w := by
  refine ⟨?_, ?_, rfl⟩
  · unfold Error abortLevel
    simp only [hout, Print_stops_on_generic_name, Res.andThen]
  · unfold Fatal abortLevel
    simp only [hout, Print_stops_on_generic_name, Res.andThen]

/-- Witness for C7: the scenario `appFull`, both sinks configured, general descriptor 0. -/
theorem Error_Fatal_stop_before_any_write_witness :
    appFull.state.log.fileOut = some 0 ∧ appFull.state.log.fileErr = some 1 ∧
      Error appFull.state
        { funcName := "main.Map[...]".toList, file := "/src/main.go".toList, line := 12,
          ok := true }
        "t1 ".toList "t2 ".toList "t3 ".toList "boom".toList =
        .stop .runtimeError (setOutput appFull.state (.file 0)) :=
  ⟨by decide, by decide,
    (Error_Fatal_stop_before_any_write appFull.state 0 "/src/main.go".toList 12 "t1 ".toList
      "t2 ".toList "t3 ".toList "boom".toList (by decide)).1⟩

/-- C8 (fails on the code). In the restart scenario (general name `out.log`, error name
`err.log`, threshold 40; `err.0.log` holds 40 bytes and `err.1.log` 12 bytes)
both sinks are configured, the error sink on `err.0.log`. One `Info` call
returns, moves the error sink to `err.1.log` and leaves that file empty: the
12 bytes it held before the call are gone. -/
theorem Info_empties_error_sink_file :
    errFull = .ok errFull.state ∧
      errFull.state.log.fileOut = some 0 ∧ errFull.state.log.fileErr = some 1 ∧
      errFull.state.log.fileErrName = "err.0.log".toList ∧
      fileData errFull.state.w "err.1.log".toList = some (List.replicate 12 'f') ∧
      Info errFull.state mainCaller "t1 ".toList "t2 ".toList "hello".toList =
        .ok (Info errFull.state mainCaller "t1 ".toList "t2 ".toList "hello".toList).state ∧
      (Info errFull.state mainCaller "t1 ".toList "t2 ".toList
        "hello".toList).state.log.fileErrName = "err.1.log".toList ∧
      fileData (Info errFull.state mainCaller "t1 ".toList "t2 ".toList "hello".toList).state.w
        "err.1.log".toList = some [] := by
  decide

set_option maxRecDepth 100000 in
/-- C1 (fails on the code). In the scenario of the specification (`app.0.log` at 100 bytes,
threshold 100, both sinks configured) an `Error` call rotates the general sink
to `app.1.log` but writes its line through the descriptor taken before the
rotation check: the line is appended to `app.0.log`, and `app.1.log` is left
empty. In the same state `Info` does append its line to `app.1.log` and leaves
`app.0.log` as it was. -/
theorem Error_appends_to_the_full_file :
    appFull = .ok appFull.state ∧
      appFull.state.log.fileOutName = "app.0.log".toList ∧
      appFull.state.log.fileOut = some 0 ∧ appFull.state.log.fileErr = some 1 ∧
      osStat appFull.state.w "app.0.log".toList = some 100 ∧
      (Error appFull.state mainCaller "t1 ".toList "t2 ".toList "t3 ".toList
        "boom".toList).state.log.fileOutName = "app.1.log".toList ∧
      fileData (Error appFull.state mainCaller "t1 ".toList "t2 ".toList "t3 ".toList
        "boom".toList).state.w "app.0.log".toList =
        some (List.replicate 100 'x' ++
          renderLine "[main:main] | ERROR : main.go:12: ".toList "t1 ".toList "boom".toList) ∧
      fileData (Error appFull.state mainCaller "t1 ".toList "t2 ".toList "t3 ".toList
        "boom".toList).state.w "app.1.log".toList = some [] ∧
      fileData (Info appFull.state mainCaller "t1 ".toList "t2 ".toList
        "boom".toList).state.w "app.0.log".toList = some (List.replicate 100 'x') ∧
      fileData (Info appFull.state mainCaller "t1 ".toList "t2 ".toList
        "boom".toList).state.w "app.1.log".toList =
        some (renderLine "[main:main] | INFO : main.go:12: ".toList "t2 ".toList
          "boom".toList) := by
  decide

/-! ## The two halves of the rotation check -/

/-- The error half either stops without touching the environment, returns
the state unchanged, or returns after one `os.Create`. -/
theorem checkErr_cases (sm : St) :
    (∃ why s1, checkErr sm = .stop why s1 ∧ s1.w = sm.w ∧
        s1.log.fileOutName = sm.log.fileOutName ∧ s1.log.fileOut = sm.log.fileOut) ∨
      checkErr sm = .ok sm ∨
      ∃ name fd w1, osCreate sm.w name = some (fd, w1) ∧
        checkErr sm = .ok (St.mk { sm.log with fileErrName := name, fileErr := some fd } w1) := by
  unfold checkErr
  cases hs : osStat sm.w sm.log.fileErrName with
  | none => left; exact ⟨.ioError, sm, rfl, rfl, rfl, rfl⟩
  | some size =>
    by_cases hm : sm.log.maxSize ≤ (size : Int)
    · simp only [hm, if_true]
      cases hr : rotatedName sm.log.fileErrName with
      | error e => left; exact ⟨e, sm, rfl, rfl, rfl, rfl⟩
      | ok name =>
        cases hc : osCreate sm.w name with
        | none =>
          left
          exact ⟨.ioError, St.mk { sm.log with fileErrName := name } sm.w, by simp only [hc],
            rfl, rfl, rfl⟩
        | some r =>
          obtain ⟨fd, w1⟩ := r
          right; right
          exact ⟨name, fd, w1, hc, by simp only [hc]⟩
    · simp only [hm, if_false]
      right; left
      trivial

/-- Whatever the error half does, it leaves the general sink's name and
descriptor, the open descriptors and the meaning of paths as they were, and
every path holds what it held or an empty file. -/
theorem checkErr_frame (sm : St) :
    (checkErr sm).state.log.fileOutName = sm.log.fileOutName ∧
      (checkErr sm).state.log.fileOut = sm.log.fileOut ∧
      (∀ q, fileData (checkErr sm).state.w q = fileData sm.w q ∨
        fileData (checkErr sm).state.w q = some []) ∧
      (∀ (i : Nat) (o : OpenFile), sm.w.fds[i]? = some o →
        (checkErr sm).state.w.fds[i]? = some o) ∧
      ∀ q, resolve (checkErr sm).state.w q = resolve sm.w q := by
  rcases checkErr_cases sm with ⟨why, s1, h, hw, hn, hf⟩ | h | ⟨name, fd, w1, hc, h⟩
  · rw [h]
    refine ⟨hn, hf, fun q => Or.inl ?_, fun i o ho => ?_, fun q => ?_⟩
    · show fileData s1.w q = _
      rw [hw]
    · show s1.w.fds[i]? = _
      rw [hw]; exact ho
    · show resolve s1.w q = _
      rw [hw]
  · rw [h]
    exact ⟨rfl, rfl, fun q => Or.inl rfl, fun i o ho => ho, fun q => rfl⟩
  · rw [h]
    obtain ⟨k, -, -, hcr⟩ := osCreate_spec _ _ _ _ hc
    exact ⟨rfl, rfl, fun q => created_kept hcr q, fun i o ho => created_fds hcr i o ho,
      fun q => created_resolve hcr q⟩

theorem checkOut_rotates (s : St) (B : Str) (N size fd : Nat) (w1 : World) (hB : B ≠ [])
    (hN : N + 1 < 2 ^ 63)
    (hname : s.log.fileOutName = logName B (Itoa (N : Int)))
    (hsize : osStat s.w (logName B (Itoa (N : Int))) = some size)
    (hmax : s.log.maxSize ≤ (size : Int))
    (hcreate : osCreate s.w (logName B (Itoa ((N + 1 : Nat) : Int))) = some (fd, w1)) :
    checkOut s = .ok
      (St.mk { s.log with fileOutName := logName B (Itoa ((N + 1 : Nat) : Int)),
                          fileOut := some fd } w1) := by
  unfold checkOut
  rw [hname]
  simp only [hsize, hmax, if_true, rotatedName_logName B N hB hN, hcreate]

theorem checkErr_rotates (s : St) (B : Str) (N size fd : Nat) (w1 : World) (hB : B ≠ [])
    (hN : N + 1 < 2 ^ 63)
    (hname : s.log.fileErrName = logName B (Itoa (N : Int)))
    (hsize : osStat s.w (logName B (Itoa (N : Int))) = some size)
    (hmax : s.log.maxSize ≤ (size : Int))
    (hcreate : osCreate s.w (logName B (Itoa ((N + 1 : Nat) : Int))) = some (fd, w1)) :
    checkErr s = .ok
      (St.mk { s.log with fileErrName := logName B (Itoa ((N + 1 : Nat) : Int)),
                          fileErr := some fd } w1) := by
  unfold checkErr
  rw [hname]
  simp only [hsize, hmax, if_true, rotatedName_logName B N hB hN, hcreate]

/-- C2 (amended). For every non-empty base name `B`, whatever bytes it contains, and every
`N` whose successor is a 64-bit `int`: on `<B>.<N>.log`, `getIndexLogFile` is
the length of `<N>.log`, `getNumLogFile` is `N`, and the rotated name is
`<B>.<N+1>.log`. When the general sink is on `<B>.<N>.log`, `os.Stat` reports a
size at or above the threshold and `os.Create` of `<B>.<N+1>.log` succeeds,
the general half of `checkLogFileSize` returns with that sink on
`<B>.<N+1>.log`, a fresh descriptor without `O_APPEND` at offset 0 and the file
empty, and this still holds when the check ends, whether the error half
returns or panics. The same holds for the error sink, read in the state the
general half has left: there its file must still be at or above the
threshold. -/
theorem rotation_moves_sink_to_next_number (s : St) (B : Str) (N size : Nat) (hB : B ≠ [])
    (hN : N + 1 < 2 ^ 63) :
    (getIndexLogFile (logName B (Itoa (N : Int))) = ((Itoa (N : Int)).length : Int) + 4 ∧
      getNumLogFile (logName B (Itoa (N : Int))) = (N : Int) ∧
      rotatedName (logName B (Itoa (N : Int))) = .ok (logName B (Itoa ((N + 1 : Nat) : Int)))) ∧
    (∀ (fd : Nat) (w1 : World),
      s.log.fileOutName = logName B (Itoa (N : Int)) →
      osStat s.w (logName B (Itoa (N : Int))) = some size → s.log.maxSize ≤ (size : Int) →
      osCreate s.w (logName B (Itoa ((N + 1 : Nat) : Int))) = some (fd, w1) →
      checkOut s = .ok
        (St.mk { s.log with fileOutName := logName B (Itoa ((N + 1 : Nat) : Int)),
                            fileOut := some fd } w1) ∧
      fileData w1 (logName B (Itoa ((N + 1 : Nat) : Int))) = some [] ∧
      (∃ k, resolve w1 (logName B (Itoa ((N + 1 : Nat) : Int))) = some k ∧
        w1.fds[fd]? = some (OpenFile.mk k false 0) ∧
        (checkLogFileSize s).state.w.fds[fd]? = some (OpenFile.mk k false 0) ∧
        resolve (checkLogFileSize s).state.w (logName B (Itoa ((N + 1 : Nat) : Int))) =
          some k) ∧
      (checkLogFileSize s).state.log.fileOutName = logName B (Itoa ((N + 1 : Nat) : Int)) ∧
      (checkLogFileSize s).state.log.fileOut = some fd ∧
      fileData (checkLogFileSize s).state.w (logName B (Itoa ((N + 1 : Nat) : Int))) =
        some []) ∧
    (∀ (sm : St) (fd : Nat) (w1 : World),
      checkOut s = .ok sm →
      sm.log.fileErrName = logName B (Itoa (N : Int)) →
      osStat sm.w (logName B (Itoa (N : Int))) = some size → sm.log.maxSize ≤ (size : Int) →
      osCreate sm.w (logName B (Itoa ((N + 1 : Nat) : Int))) = some (fd, w1) →
      checkLogFileSize s = .ok
        (St.mk { sm.log with fileErrName := logName B (Itoa ((N + 1 : Nat) : Int)),
                             fileErr := some fd } w1) ∧
      fileData w1 (logName B (Itoa ((N + 1 : Nat) : Int))) = some [] ∧
      ∃ k, resolve w1 (logName B (Itoa ((N + 1 : Nat) : Int))) = some k ∧
        w1.fds[fd]? = some (OpenFile.mk k false 0)) := by
  obtain ⟨-, hnd, hat⟩ := Itoa_spec N (by omega)
  refine ⟨⟨getIndexLogFile_logName B _ hB hnd, ?_, rotatedName_logName B N hB hN⟩, ?_, ?_⟩
  · rw [getNumLogFile_logName B _ hB hnd, hat]
  · intro fd w1 hname hsize hmax hcreate
    have hout := checkOut_rotates s B N size fd w1 hB hN hname hsize hmax hcreate
    obtain ⟨k, hk, hfd, hcr⟩ := osCreate_spec _ _ _ _ hcreate
    have hempty := created_empty hcr _ hk
    have hres : resolve w1 (logName B (Itoa ((N + 1 : Nat) : Int))) = some k := by
      rw [created_resolve hcr]; exact hk
    have hdesc : w1.fds[fd]? = some (OpenFile.mk k false 0) := by
      rw [hfd]; exact created_new_fd hcr
    have hchk : checkLogFileSize s =
        checkErr (St.mk { s.log with fileOutName := logName B (Itoa ((N + 1 : Nat) : Int)),
                                     fileOut := some fd } w1) := by
      unfold checkLogFileSize
      rw [hout]
      rfl
    obtain ⟨f1, f2, f3, f4, f5⟩ := checkErr_frame
      (St.mk { s.log with fileOutName := logName B (Itoa ((N + 1 : Nat) : Int)),
                          fileOut := some fd } w1)
    refine ⟨hout, hempty, ⟨k, hres, hdesc, ?_, ?_⟩, ?_, ?_, ?_⟩
    · rw [hchk]; exact f4 fd _ hdesc
    · rw [hchk, f5]; exact hres
    · rw [hchk]; exact f1
    · rw [hchk]; exact f2
    · rw [hchk]
      rcases f3 (logName B (Itoa ((N + 1 : Nat) : Int))) with h | h
      · exact h.trans hempty
      · exact h
  · intro sm fd w1 hsm hname hsize hmax hcreate
    have herr := checkErr_rotates sm B N size fd w1 hB hN hname hsize hmax hcreate
    obtain ⟨k, hk, hfd, hcr⟩ := osCreate_spec _ _ _ _ hcreate
    refine ⟨?_, created_empty hcr _ hk, k, ?_, ?_⟩
    · unfold checkLogFileSize
      rw [hsm]
      exact herr
    · rw [created_resolve hcr]; exact hk
    · rw [hfd]; exact created_new_fd hcr

set_option maxRecDepth 100000 in
/-- Witness for C2 (amended): in the scenario `bothFull` the general sink, whose base
name `my.log` itself ends in `.log`, moves from `my.log.0.log` to
`my.log.1.log` (descriptor 2), and the error sink, in the state the general
half has left, from `err.0.log` to `err.1.log` (descriptor 3). -/
theorem rotation_moves_sink_to_next_number_witness :
    checkOut bothFull.state = .ok
        (St.mk { bothFull.state.log with
                   fileOutName := logName "my.log".toList (Itoa ((0 + 1 : Nat) : Int)),
                   fileOut := some 2 }
          (checkOut bothFull.state).state.w) ∧
      checkLogFileSize bothFull.state = .ok
        (St.mk { (checkOut bothFull.state).state.log with
                   fileErrName := logName "err".toList (Itoa ((0 + 1 : Nat) : Int)),
                   fileErr := some 3 }
          (checkLogFileSize bothFull.state).state.w) :=
  ⟨((rotation_moves_sink_to_next_number bothFull.state "my.log".toList 0 100 (by decide)
      (by decide)).2.1 2 (checkOut bothFull.state).state.w (by decide) (by decide) (by decide)
      (by decide)).1,
    ((rotation_moves_sink_to_next_number bothFull.state "err".toList 0 100 (by decide)
      (by decide)).2.2 (checkOut bothFull.state).state 3
      (checkLogFileSize bothFull.state).state.w (by decide) (by decide) (by decide) (by decide)
      (by decide)).1⟩

set_option maxRecDepth 100000 in
/-- C2 (counterexample). In the state `crossed`, reached through the package's own calls, the
error sink is on `abcd.10.log`, which holds 123 bytes with threshold 100, and
the general sink on `abcd.9.log`, also at the threshold. `checkLogFileSize`
returns with the error sink still on `abcd.10.log` and no `abcd.11.log`: the
general half has just created, and so truncated, `abcd.10.log`. In the state
`lastNumber` the general sink is on number 9223372036854775807; the check
moves it to `abcdefghijklmnopqrstuv.-9223372036854775808.log`. -/
theorem checkLogFileSize_skips_error_sink_and_wraps :
    (crossed = .ok crossed.state ∧
      crossed.state.log.fileOut = some 4 ∧ crossed.state.log.fileErr = some 3 ∧
      crossed.state.log.fileOutName = "abcd.9.log".toList ∧
      crossed.state.log.fileErrName = "abcd.10.log".toList ∧
      crossed.state.log.maxSize = 100 ∧
      osStat crossed.state.w "abcd.10.log".toList = some 123 ∧
      checkLogFileSize crossed.state = .ok (checkLogFileSize crossed.state).state ∧
      (checkLogFileSize crossed.state).state.log.fileErrName = "abcd.10.log".toList ∧
      (checkLogFileSize crossed.state).state.log.fileErr = some 3 ∧
      fileData (checkLogFileSize crossed.state).state.w "abcd.10.log".toList = some [] ∧
      fileData (checkLogFileSize crossed.state).state.w "abcd.11.log".toList = none) ∧
    (lastNumber = .ok lastNumber.state ∧
      lastNumber.state.log.fileOutName =
        "abcdefghijklmnopqrstuv.9223372036854775807.log".toList ∧
      lastNumber.state.log.maxSize = 100 ∧
      osStat lastNumber.state.w "abcdefghijklmnopqrstuv.9223372036854775807.log".toList =
        some 100 ∧
      checkLogFileSize lastNumber.state = .ok (checkLogFileSize lastNumber.state).state ∧
      (checkLogFileSize lastNumber.state).state.log.fileOutName =
        "abcdefghijklmnopqrstuv.-9223372036854775808.log".toList) := by
  decide

/-! ## The start-up scan on numbered files -/

theorem lastIndexSlash_none (p : Str) (h : '/' ∉ p) : lastIndexSlash p = none := by
  have : p.reverse.indexOf? '/' = none := by
    rw [List.indexOf?_eq_none_iff]
    intro x hx hxe
    have hx2 : x ∈ p := List.mem_reverse.1 hx
    have : x = '/' := by simpa using hxe
    exact h (this ▸ hx2)
  unfold lastIndexSlash
  rw [this]

theorem Itoa_digit (i : Nat) (hi : i ≤ 9) :
    Itoa (i : Int) = [Nat.digitChar i] ∧ Nat.digitChar i ≠ '/' ∧ Nat.digitChar i ≠ '.' ∧
      Atoi [Nat.digitChar i] = (i : Int) := by
  interval_cases i <;> decide

theorem logName_no_slash (B : Str) (i : Nat) (hB : '/' ∉ B) (hi : i ≤ 9) :
    '/' ∉ logName B (Itoa (i : Int)) := by
  obtain ⟨h1, h2, -, -⟩ := Itoa_digit i hi
  rw [h1]
  simp only [logName, dotLog, List.mem_append, List.mem_cons, List.mem_singleton,
    List.not_mem_nil, or_false, not_or]
  exact ⟨⟨hB, by decide, fun h => h2 h.symm⟩, by decide, by decide, by decide, by decide⟩

theorem getFileNumLoop_append (filename : Str) (l1 l2 : List DirEntry) (num : Int) :
    getFileNumLoop filename (l1 ++ l2) num =
      match getFileNumLoop filename l1 num with
      | .error e => .error e
      | .ok n => getFileNumLoop filename l2 n := by
  induction l1 generalizing num with
  | nil => rfl
  | cons e rest ih =>
    simp only [List.cons_append, getFileNumLoop]
    cases getFileNumStep filename num e with
    | error e => rfl
    | ok n => exact ih n

/-- On the entry `<B>.<i>.log` with a four-byte `B` and a one-digit `i` the loop
body compares the right bytes and keeps the larger number. -/
theorem getFileNumStep_match (B : Str) (i : Nat) (num : Int) (hB : B.length = 4) (hi : i ≤ 9) :
    getFileNumStep B num (DirEntry.mk (logName B (Itoa (i : Int))) false) =
      .ok (if num < (i : Int) then (i : Int) else num) := by
  obtain ⟨h1, -, h3, h4⟩ := Itoa_digit i hi
  have hne : B ≠ [] := by intro h; rw [h] at hB; exact absurd hB (by decide)
  have hnd : ∀ c ∈ Itoa (i : Int), c ≠ '.' := by
    rw [h1]; intro c hc; simp at hc; rw [hc]; exact h3
  have hidx := getIndexLogFile_logName B (Itoa (i : Int)) hne hnd
  have hnum := getNumLogFile_logName B (Itoa (i : Int)) hne hnd
  rw [h1] at hidx hnum
  rw [h4] at hnum
  have hlen := logName_length B [Nat.digitChar i]
  have htake : List.take 4 (logName B [Nat.digitChar i]) = B := by
    simp [logName, List.take_append_eq_append_take, hB]
  unfold getFileNumStep slice
  rw [h1]
  simp only [hidx, hnum, hlen]
  have hc : (0 : Int) ≤ 0 ∧ (0 : Int) ≤ (([Nat.digitChar i].length : Nat) : Int) + 4 - 1 ∧
      (([Nat.digitChar i].length : Nat) : Int) + 4 - 1 ≤
        ((B.length + [Nat.digitChar i].length + 5 : Nat) : Int) := by
    simp only [List.length_singleton]
    refine ⟨Int.le_refl 0, ?_, ?_⟩
    · omega
    · push_cast; omega
  rw [if_pos hc]
  have ht : ((([Nat.digitChar i].length : Nat) : Int) + 4 - 1).toNat = 4 := by
    simp
  simp only [ht, Int.toNat_zero, List.drop_zero, htake]
  simp only [Bool.not_false, decide_True, Bool.and_self, if_true]
  split <;> rfl

theorem getFileNumLoop_range (B : Str) (hB : B.length = 4) (k : Nat) (hk : k ≤ 9) :
    getFileNumLoop B ((List.range (k + 1)).map fun (i : Nat) =>
      DirEntry.mk (logName B (Itoa (i : Int))) false) 0 = .ok (k : Int) := by
  induction k with
  | zero =>
    simp only [List.range_succ, List.range_zero, List.nil_append, List.map_cons, List.map_nil,
      getFileNumLoop]
    rw [getFileNumStep_match B 0 0 hB (by omega)]
    rfl
  | succ k ih =>
    rw [List.range_succ, List.map_append, getFileNumLoop_append, ih (by omega)]
    simp only [List.map_cons, List.map_nil, getFileNumLoop]
    rw [getFileNumStep_match B (k + 1) k hB hk]
    have : (k : Int) < ((k + 1 : Nat) : Int) := by push_cast; omega
    simp only [this, if_true]

theorem slice_suffix (b : Str) :
    slice (b ++ dotLog) (((b ++ dotLog).length : Nat) - 4) (b ++ dotLog).length = some dotLog ∧
      slice (b ++ dotLog) 0 (((b ++ dotLog).length : Nat) - 4) = some b := by
  unfold slice
  have hl : (b ++ dotLog).length = b.length + 4 := by simp [dotLog]
  rw [hl]
  have c1 : (0 : Int) ≤ ((b.length + 4 : Nat) : Int) - 4 ∧
      ((b.length + 4 : Nat) : Int) - 4 ≤ ((b.length + 4 : Nat) : Int) ∧
      ((b.length + 4 : Nat) : Int) ≤ ((b.length + 4 : Nat) : Int) := by
    refine ⟨?_, ?_, ?_⟩ <;> push_cast <;> omega
  have c2 : (0 : Int) ≤ 0 ∧ (0 : Int) ≤ ((b.length + 4 : Nat) : Int) - 4 ∧
      ((b.length + 4 : Nat) : Int) - 4 ≤ ((b.length + 4 : Nat) : Int) := by
    refine ⟨?_, ?_, ?_⟩ <;> push_cast <;> omega
  rw [if_pos c1, if_pos c2]
  have t1 : (((b.length + 4 : Nat) : Int) - 4).toNat = b.length := by push_cast; omega
  have t2 : (((b.length + 4 : Nat) : Int)).toNat = b.length + 4 := Int.toNat_ofNat _
  rw [t1, t2]
  constructor
  · have : List.take (b.length + 4) (b ++ dotLog) = b ++ dotLog := by
      apply List.take_of_length_le; simp [dotLog]
    rw [this]
    simp
  · simp

theorem slice_four (B : Str) (hB : B.length = 4) :
    slice B ((B.length : Nat) - 4) B.length = some B := by
  unfold slice
  rw [hB]
  simp only [Int.toNat_ofNat]
  have : List.take 4 B = B := List.take_of_length_le (by omega)
  simp [this]

/-- The two spellings of a four-byte base name reach the same base and the same
numbered name. -/
theorem base_of_name (B F : Str) (num : Int) (hB : B.length = 4)
    (hF : F = B ++ dotLog ∨ (F = B ∧ B ≠ dotLog)) :
    stripLog F = .ok B ∧ numberedName F num = .ok (logName B (Itoa num)) := by
  rcases hF with rfl | ⟨rfl, hne⟩
  · obtain ⟨h1, h2⟩ := slice_suffix B
    unfold stripLog numberedName
    simp only [h1, h2, if_true, ne_eq, not_true_eq_false, if_false]
    exact ⟨trivial, rfl⟩
  · have h1 := slice_four F hB
    unfold stripLog numberedName
    simp only [h1, hne, if_false, ne_eq, not_false_eq_true, if_true]
    exact ⟨trivial, rfl⟩

/-! ## Names in the working directory -/

theorem splitSlash_plain (p : Str) (h : '/' ∉ p) : splitSlash p = [p] := by
  induction p with
  | nil => rfl
  | cons c cs ih =>
    have hc : c ≠ '/' := fun e => h (e ▸ List.mem_cons_self _ _)
    have hcs : '/' ∉ cs := fun e => h (List.mem_cons_of_mem _ e)
    simp only [splitSlash, hc, if_false, ih hcs]

theorem isDirKey_cwd (w : World) : isDirKey w w.cwd = true := by
  simp [isDirKey]

theorem resolve_dot (w : World) : resolve w ['.'] = some w.cwd := by
  have hs : splitSlash ['.'] = [['.']] := by decide
  have hc := isDirKey_cwd w
  simp [resolve, hs, walk, hc]

/-- A non-empty name without a slash, other than `.` and `..`, denotes the entry
of that name in the working directory. -/
theorem resolve_plain (w : World) (p : Str) (hne : p ≠ []) (hs : '/' ∉ p) (h1 : p ≠ ['.'])
    (h2 : p ≠ ['.', '.']) : resolve w p = some (w.cwd ++ [p]) := by
  have hhead : p.head? ≠ some '/' := by
    cases p with
    | nil => simp
    | cons c cs =>
      intro e
      simp only [List.head?_cons, Option.some.injEq] at e
      exact hs (e ▸ List.mem_cons_self _ _)
  unfold resolve
  simp only [hne, if_false, hhead, splitSlash_plain p hs, walk, isDirKey_cwd, if_true, h1, h2,
    or_self]

/-- What the listing of the working directory says about one of its entries. -/
theorem node_of_listing (w : World) (L : List DirEntry) (name : Str)
    (hdir : osReadDir w ['.'] = some L) (hfile : ∀ e ∈ L, e.isDir = false)
    (hmem : DirEntry.mk name false ∈ L) :
    ∃ n, nodeAt w (w.cwd ++ [name]) = some n ∧ n.isDir = false := by
  unfold osReadDir at hdir
  simp only [resolve_dot, isDirKey_cwd, if_true, Nat.lt_irrefl, false_and, if_false,
    List.append_nil, Option.some.injEq] at hdir
  have hP : ∀ n : Node, n ∈ w.fs → n.key = w.cwd ++ [name] → n.isDir = false := by
    intro n hn hk
    have hin : DirEntry.mk (n.key.getLast?.getD []) n.isDir ∈ L := by
      rw [← hdir]
      refine List.mem_map.2 ⟨n, List.mem_filter.2 ⟨hn, ?_⟩, rfl⟩
      simp [hk]
    exact hfile _ hin
  rw [← hdir] at hmem
  obtain ⟨n, hn, hfn⟩ := List.mem_map.1 hmem
  obtain ⟨hnfs, hp⟩ := List.mem_filter.1 hn
  simp only [ne_eq, decide_eq_true_eq] at hp
  simp only [DirEntry.mk.injEq] at hfn
  have hkey : n.key = w.cwd ++ [name] := by
    cases hl : n.key.getLast? with
    | none =>
      rw [List.getLast?_eq_none_iff] at hl
      exact absurd hl hp.1
    | some a =>
      have := List.dropLast_append_getLast? a (by rw [hl]; exact rfl)
      rw [hp.2] at this
      rw [hl] at hfn
      simp only [Option.getD_some] at hfn
      rw [← this, hfn.1]
  have hsome : (nodeAt w (w.cwd ++ [name])).isSome = true := by
    unfold nodeAt
    rw [List.find?_isSome]
    exact ⟨n, hnfs, by simp [hkey]⟩
  obtain ⟨m, hm⟩ := Option.isSome_iff_exists.1 hsome
  refine ⟨m, hm, hP m ?_ (nodeAt_key w _ m hm)⟩
  unfold nodeAt at hm
  exact List.mem_of_find?_eq_some hm

theorem osOpenAppend_existing (w : World) (name : Str) (n : Node) (hne : name ≠ [])
    (hs : '/' ∉ name) (h1 : name ≠ ['.']) (h2 : name ≠ ['.', '.'])
    (hn : nodeAt w (w.cwd ++ [name]) = some n) (hd : n.isDir = false) :
    osOpenAppend w name =
      some (w.fds.length,
        { w with fds := w.fds ++ [OpenFile.mk (w.cwd ++ [name]) true 0] }) := by
  have hnp : ¬ (w.cwd ++ [name]) <+: w.cwd := by
    intro h
    have := h.length_le
    simp at this
  have hdk : isDirKey w (w.cwd ++ [name]) = false := by
    simp [isDirKey, hnp, hn, hd]
  unfold osOpenAppend
  simp only [resolve_plain w name hne hs h1 h2, hdk, Bool.false_eq_true, if_false, hn]

theorem logName_plain (B : Str) (i : Nat) (hB : '/' ∉ B) (hi : i ≤ 9) :
    logName B (Itoa (i : Int)) ≠ [] ∧ '/' ∉ logName B (Itoa (i : Int)) ∧
      logName B (Itoa (i : Int)) ≠ ['.'] ∧ logName B (Itoa (i : Int)) ≠ ['.', '.'] := by
  have hlen := logName_length B (Itoa (i : Int))
  refine ⟨?_, logName_no_slash B i hB hi, ?_, ?_⟩
  · intro h; rw [h] at hlen; simp at hlen
  · intro h; rw [h] at hlen; simp at hlen
  · intro h; rw [h] at hlen; simp at hlen

theorem getFileNum_listing (w : World) (B F : Str) (k : Nat)
    (hB : B.length = 4) (hslash : '/' ∉ B) (hF : F = B ++ dotLog ∨ (F = B ∧ B ≠ dotLog))
    (hk : k ≤ 9)
    (hdir : osReadDir w ['.'] = some ((List.range (k + 1)).map fun (i : Nat) =>
      DirEntry.mk (logName B (Itoa (i : Int))) false)) :
    getFileNum w F = .ok (k : Int) := by
  have hFs : '/' ∉ F := by
    rcases hF with rfl | ⟨rfl, -⟩
    · simp only [List.mem_append, not_or]
      exact ⟨hslash, by decide⟩
    · exact hslash
  unfold getFileNum
  simp only [lastIndexSlash_none F hFs, (base_of_name B F 0 hB hF).1, hdir]
  exact getFileNumLoop_range B hB k hk

theorem opens_highest (w : World) (B : Str) (k : Nat) (hslash : '/' ∉ B) (hk : k ≤ 9)
    (hdir : osReadDir w ['.'] = some ((List.range (k + 1)).map fun (i : Nat) =>
      DirEntry.mk (logName B (Itoa (i : Int))) false)) :
    osOpenAppend w (logName B (Itoa (k : Int))) =
      some (w.fds.length,
        { w with fds := w.fds ++
            [OpenFile.mk (w.cwd ++ [logName B (Itoa (k : Int))]) true 0] }) := by
  obtain ⟨p1, p2, p3, p4⟩ := logName_plain B k hslash hk
  obtain ⟨n, hn, hd⟩ := node_of_listing w _ (logName B (Itoa (k : Int))) hdir
    (by
      intro e he
      obtain ⟨i, -, rfl⟩ := List.mem_map.1 he
      rfl)
    (List.mem_map.2 ⟨k, List.mem_range.2 (by omega), rfl⟩)
  exact osOpenAppend_existing w _ n p1 p2 p3 p4 hn hd

/-- C3 (amended). For every base name `B` of exactly four bytes without a slash and every
`k ≤ 9`: when the listing of the working directory is exactly the regular
files `<B>.0.log` ... `<B>.k.log`, `SetFileOutName` and `SetFileErrName`, called
with `B.log` or, when `B` is not `.log` itself, with `B`, return with the sink on
`<B>.k.log`, the highest existing number and not `k+1`, through a new
descriptor opened with `O_APPEND` on that existing file; the environment is
otherwise as before: no file is created and none is truncated. -/
theorem setters_reopen_highest_numbered_file (s : St) (B F : Str) (k : Nat)
    (hB : B.length = 4) (hslash : '/' ∉ B) (hF : F = B ++ dotLog ∨ (F = B ∧ B ≠ dotLog))
    (hk : k ≤ 9)
    (hdir : osReadDir s.w ['.'] = some ((List.range (k + 1)).map fun (i : Nat) =>
      DirEntry.mk (logName B (Itoa (i : Int))) false)) :
    SetFileOutName s F = .ok
        (St.mk
          { s.log with fileOutNum := (k : Int), fileOutName := logName B (Itoa (k : Int)),
                       fileOut := some s.w.fds.length }
          { s.w with fds := s.w.fds ++
              [OpenFile.mk (s.w.cwd ++ [logName B (Itoa (k : Int))]) true 0] }) ∧
      SetFileErrName s F = .ok
        (St.mk
          { s.log with fileErrNum := (k : Int), fileErrName := logName B (Itoa (k : Int)),
                       fileErr := some s.w.fds.length }
          { s.w with fds := s.w.fds ++
              [OpenFile.mk (s.w.cwd ++ [logName B (Itoa (k : Int))]) true 0] }) := by
  have hFne : F ≠ [] := by
    rcases hF with rfl | ⟨rfl, -⟩
    · simp [dotLog]
    · intro h; rw [h] at hB; exact absurd hB (by decide)
  have h1 := getFileNum_listing s.w B F k hB hslash hF hk hdir
  have h2 := (base_of_name B F (k : Int) hB hF).2
  have h3 := opens_highest s.w B k hslash hk hdir
  constructor
  · unfold SetFileOutName
    simp only [ne_eq, hFne, not_false_eq_true, if_true, h1, h2, h3]
  · unfold SetFileErrName
    simp only [ne_eq, hFne, not_false_eq_true, if_true, h1, h2, h3]

/-- Witness for C3 (amended): base `abcd`, files 0 to 5 present, name given as
`abcd.log`: both setters put the sink on `abcd.5.log`. -/
theorem setters_reopen_highest_numbered_file_witness :
    SetFileOutName { log := NewLog, w := sixFiles } ("abcd".toList ++ dotLog) = .ok
        (St.mk
          { NewLog with fileOutNum := ((5 : Nat) : Int),
                        fileOutName := logName "abcd".toList (Itoa ((5 : Nat) : Int)),
                        fileOut := some sixFiles.fds.length }
          { sixFiles with fds := sixFiles.fds ++
              [OpenFile.mk (sixFiles.cwd ++ [logName "abcd".toList (Itoa ((5 : Nat) : Int))])
                true 0] }) ∧
      SetFileErrName { log := NewLog, w := sixFiles } ("abcd".toList ++ dotLog) = .ok
        (St.mk
          { NewLog with fileErrNum := ((5 : Nat) : Int),
                        fileErrName := logName "abcd".toList (Itoa ((5 : Nat) : Int)),
                        fileErr := some sixFiles.fds.length }
          { sixFiles with fds := sixFiles.fds ++
              [OpenFile.mk (sixFiles.cwd ++ [logName "abcd".toList (Itoa ((5 : Nat) : Int))])
                true 0] }) :=
  setters_reopen_highest_numbered_file { log := NewLog, w := sixFiles } "abcd".toList
    ("abcd".toList ++ dotLog) 5 (by decide) (by decide) (Or.inl rfl) (by decide) (by decide)

/-- C3 (counterexample). With `abcd.0.log` and `abcd.1.log` present, `SetFileErrName("abcd.log")`
returns with the error sink on `abcd.1.log`, reopened for appending, and not
on a new `abcd.2.log`, which does not exist afterwards. With `err.0.log` and
`err.1.log` present, `SetFileErrName("err.log")` puts the sink on `err.0.log`. -/
theorem SetFileErrName_reopens_existing_file :
    (SetFileErrName { log := NewLog, w := abcdDir } "abcd.log".toList).state.log.fileErrName =
        "abcd.1.log".toList ∧
      SetFileErrName { log := NewLog, w := abcdDir } "abcd.log".toList =
        .ok (SetFileErrName { log := NewLog, w := abcdDir } "abcd.log".toList).state ∧
      (SetFileErrName { log := NewLog, w := abcdDir } "abcd.log".toList).state.w.fds =
        [OpenFile.mk ["abcd.1.log".toList] true 0] ∧
      fileData (SetFileErrName { log := NewLog, w := abcdDir } "abcd.log".toList).state.w
        "abcd.2.log".toList = none ∧
      (SetFileErrName { log := NewLog, w := errDir } "err.log".toList).state.log.fileErrName =
        "err.0.log".toList := by
  decide

end Logger
